import Mathlib

/-!
# The frame-capture callback of `chanvesecli.c`

A shallow embedding of `PlotFun` (the plot callback of the Chan-Vese command
line program) and of the `ROUNDCLAMP` macro, with the properties of the
capture policy, of the overlay compositing and of the frame storage.

Modelling conventions.

* The C type `num` (`float` or `double`) is the field `ℚ` of exact rationals.
  A literal stands for the number the machine holds: `0.5`, `4.0f` and `255.0`
  are exact, and the single-precision literal `0.95f` is `15938355 / 2^24`,
  the `float` nearest to `0.95`.
* C `int` values are unbounded integers; it is assumed throughout that
  `3*Width*Height*(NumFrames + 1)` fits the machine type.
* Reading an array outside its bounds, using a pointer to a released block and
  dividing by zero are undefined in C: the embedding returns `none` there.
* The diagnostic output written to `stderr` is not part of the state.
-/

namespace ChanVeseCli

/-! ## The rounding macro -/

/-- The macro `ROUNDCLAMP(x)` of `chanvesecli.c`, lines 30-31:
`(x < 0) ? 0 : ((x > 1) ? 255 : (uint8_t)floor(255.0*(x) + 0.5))`.
The conversion to `uint8_t` is the reduction modulo `256`. -/
def ROUNDCLAMP (x : ℚ) : Int :=
  if x < 0 then 0
  else if x > 1 then 255
  else Int.floor (255 * x + 1 / 2) % 256


/-! ## Undefined behaviour and the two pixel loops -/

/-- Collects a list of results that may each be undefined: the whole is
defined when every entry is. -/
def allSome {α : Type} : List (Option α) → Option (List α)
  | [] => some []
  | none :: _ => none
  | some a :: t => (allSome t).map (fun r => a :: r)

/-- The pixels `(x, y)` in the order in which the nested loops
`for(y = 0; y < Height; y++) for(x = 0; x < Width; x++, i++)` of lines
329-330 and 344-349 visit them; the running index `i` of the loops is
`x + Width*y` at the pixel `(x, y)` (line 362). -/
def pixels (Width Height : Nat) : List (Nat × Nat) :=
  (List.range Height).flatMap (fun y => (List.range Width).map (fun x => (x, y)))

/-- The C operator `a && b`: `b` is evaluated only when `a` holds. -/
def cAnd (a : Bool) (b : Option Bool) : Option Bool :=
  if a then b else some false

/-- The C operator `a || b`: `b` is evaluated only when `a` does not hold. -/
def cOr (a b : Option Bool) : Option Bool :=
  match a with
  | none => none
  | some true => some true
  | some false => b

/-- The test `Phi[k] < 0`, undefined when `k` is outside the array. -/
def isNeg (Phi : List ℚ) (k : Nat) : Option Bool :=
  (Phi[k]?).map (fun v => decide (v < 0))

/-! ## The edge indicator (lines 329-342) -/

/-- The value `Edge` that lines 332-339 compute at the pixel `(x, y)`,
`i = x + Width*y`. The index `i - 1` is read only under `x > 0` and the index
`i - Width` only under `y > 0`, where the subtraction is exact. -/
def edgeAt (Phi : List ℚ) (Width Height x y : Nat) : Option Int :=
  let i := x + Width * y
  match Phi[i]? with
  | none => none
  | some c =>
    if c ≥ 0 then
      match cOr (cAnd (decide (x > 0)) (isNeg Phi (i - 1)))
          (cOr (cAnd (decide (x + 1 < Width)) (isNeg Phi (i + 1)))
            (cOr (cAnd (decide (y > 0)) (isNeg Phi (i - Width)))
              (cAnd (decide (y + 1 < Height)) (isNeg Phi (i + Width))))) with
      | none => none
      | some b => some (if b then 1 else 0)
    else some 0

/-- The array `Temp` after the first loop (lines 329-342): the edge indicator
of every pixel, in loop order. -/
def edgeMap (Phi : List ℚ) (Width Height : Nat) : Option (List Int) :=
  allSome ((pixels Width Height).map (fun p => edgeAt Phi Width Height p.1 p.2))

/-- The edge indicator in the words of the specification: the pixel is inside
(`>= 0`) and one of its four neighbours, with coordinates clamped to the image,
is outside (`< 0`). -/
def edgeClamped (Phi : List ℚ) (Width Height x y : Nat) : Prop :=
  Phi.getD (x + Width * y) 0 ≥ 0 ∧
    (Phi.getD ((x - 1) + Width * y) 0 < 0 ∨
     Phi.getD (min (x + 1) (Width - 1) + Width * y) 0 < 0 ∨
     Phi.getD (x + Width * (y - 1)) 0 < 0 ∨
     Phi.getD (x + Width * min (y + 1) (Height - 1)) 0 < 0)

instance (Phi : List ℚ) (Width Height x y : Nat) :
    Decidable (edgeClamped Phi Width Height x y) := by
  unfold edgeClamped
  infer_instance

/-! ## The compositing loop (lines 344-378) -/

/-- A read `Temp[k]` at a signed index. -/
def readTemp (Temp : List Int) (k : Int) : Option Int :=
  if k < 0 then none else Temp[k.toNat]?

/-- The value of `Alpha` after lines 346-365, before the clamp of line 367:
`(4*Temp[i] + Temp[i + ir] + Temp[i + il] + Temp[i + id] + Temp[i + iu])/4.0f`
with the offsets `iu`, `id`, `il`, `ir` of lines 346-352. -/
def alphaRaw (Temp : List Int) (Width Height x y : Nat) : Option ℚ :=
  let iu : Int := if y = 0 then 0 else -(Width : Int)
  let id : Int := if (y : Int) = (Height : Int) - 1 then 0 else (Width : Int)
  let il : Int := if x = 0 then 0 else -1
  let ir : Int := if (x : Int) = (Width : Int) - 1 then 0 else 1
  let i : Int := (x : Int) + (Width : Int) * (y : Int)
  match readTemp Temp i, readTemp Temp (i + ir), readTemp Temp (i + il),
      readTemp Temp (i + id), readTemp Temp (i + iu) with
  | some t, some tr, some tl, some td, some tu =>
    some (((4 * t + tr + tl + td + tu : Int) : ℚ) / 4)
  | _, _, _, _, _ => none

/-- Lines 367-368: `if(Alpha > 1) Alpha = 1;`. -/
def clampAlpha (Alpha : ℚ) : ℚ :=
  if Alpha > 1 then 1 else Alpha

/-- Lines 354-356: the three samples `Image[i]`, `Image[i + NumPixels]` and
`Image[i + 2*NumPixels]` read for the pixel of index `i`. The reads do not
depend on `NumChannels`. -/
def pixelInputs (Image : List ℚ) (NumPixels i : Nat) : Option (ℚ × ℚ × ℚ) :=
  match Image[i]?, Image[i + NumPixels]?, Image[i + 2 * NumPixels]? with
  | some Red, some Green, some Blue => some (Red, Green, Blue)
  | _, _, _ => none

/-- The value of the literal `0.95f` of lines 358-360. A `float` has a
significand of 24 bits: of the numbers `m / 2^24` the nearest to `0.95` is
`15938355 / 16777216 = 0.949999988...`, and this, not `19/20`, is the factor
the program multiplies by. -/
def darkening : ℚ := 15938355 / 16777216

/-- Lines 358-360 and 370-376: the darkening by `0.95f`, the blend with the
blue highlight and the three bytes written to `Plot[3*i + 0 .. 3*i + 2]`. -/
def blend (Alpha Red Green Blue : ℚ) : List Int :=
  let Red := darkening * Red
  let Green := darkening * Green
  let Blue := darkening * Blue
  let Red := (1 - Alpha) * Red
  let Green := (1 - Alpha) * Green
  let Blue := (1 - Alpha) * Blue + Alpha
  [ROUNDCLAMP Red, ROUNDCLAMP Green, ROUNDCLAMP Blue]

/-- One iteration of the body of the second loop (lines 351-376): the three
bytes of the pixel `(x, y)`. -/
def pixelAt (Image : List ℚ) (Temp : List Int) (Width Height x y : Nat) :
    Option (List Int) :=
  match pixelInputs Image (Width * Height) (x + Width * y) with
  | none => none
  | some (Red, Green, Blue) =>
    match alphaRaw Temp Width Height x y with
    | none => none
    | some Alpha => some (blend (clampAlpha Alpha) Red Green Blue)

/-- The `3*Width*Height` bytes that the second loop (lines 344-378) writes,
pixel after pixel, from `Plot[0]` on. -/
def renderFrame (Image : List ℚ) (Temp : List Int) (Width Height : Nat) :
    Option (List Int) :=
  (allSome ((pixels Width Height).map
    (fun p => pixelAt Image Temp Width Height p.1 p.2))).map List.flatten

/-- Both loops: the frame composited from the boundary field and the image. -/
def compositeFrame (Image Phi : List ℚ) (Width Height : Nat) : Option (List Int) :=
  match edgeMap Phi Width Height with
  | none => none
  | some Temp => renderFrame Image Temp Width Height

/-! ## The heap: `malloc`, `realloc`, `free` -/

/-- What one call of the allocator does: it fails (returns `NULL`), it
succeeds keeping the block where it is, or it succeeds with a block at a new
address. -/
inductive AllocOutcome where
  | fail
  | inPlace
  | moved
  deriving DecidableEq

/-- The heap: the cell at address `a` is `some b` while a block with the cells
`b` is allocated there, and `none` once that block has been released. A new
block takes the first address never used. -/
abbrev Heap := List (Option (List Int))

/-- The cells of the live block at address `a`, if there is one. -/
def blockAt (heap : Heap) (a : Nat) : Option (List Int) :=
  match heap[a]? with
  | some (some b) => some b
  | _ => none

/-- The cells a pointer gives access to: none for `NULL`. Undefined for a
pointer to a released block. -/
def cellsOf (heap : Heap) (p : Option Nat) : Option (List Int) :=
  match p with
  | none => some []
  | some a => blockAt heap a

/-- The contents of a block resized to `n` cells: the old cells up to the
smaller of the two sizes; the cells added, indeterminate in C, are shown as `0`. -/
def resize (b : List Int) (n : Nat) : List Int :=
  (b ++ List.replicate n 0).take n

/-- The library call `malloc` for `n` cells. -/
def malloc (heap : Heap) (n : Nat) (o : AllocOutcome) : Heap × Option Nat :=
  match o with
  | AllocOutcome.fail => (heap, none)
  | _ => (heap ++ [some (List.replicate n 0)], some heap.length)

/-- The library call `realloc(p, n)`: with `p = NULL` it is `malloc`; on
failure the old block is untouched; when the block moves the old address is
released. Undefined when `p` is not `NULL` and not a live block. -/
def realloc (heap : Heap) (p : Option Nat) (n : Nat) (o : AllocOutcome) :
    Option (Heap × Option Nat) :=
  match p with
  | none => some (malloc heap n o)
  | some a =>
    match blockAt heap a with
    | none => none
    | some b =>
      match o with
      | AllocOutcome.fail => some (heap, none)
      | AllocOutcome.inPlace => some (heap.set a (some (resize b n)), some a)
      | AllocOutcome.moved =>
        some (heap.set a none ++ [some (resize b n)], some heap.length)

/-- The library call `free`. -/
def free (heap : Heap) (a : Nat) : Option Heap :=
  match blockAt heap a with
  | none => none
  | some _ => some (heap.set a none)

/-- Writes the cells `vals` into the live block at `a`, from offset `off` on. -/
def writeCells (heap : Heap) (a off : Nat) (vals : List Int) : Option Heap :=
  match blockAt heap a with
  | none => none
  | some b =>
    if off + vals.length ≤ b.length then
      some (heap.set a (some (b.take off ++ vals ++ b.drop (off + vals.length))))
    else none

/-! ## The callback -/

/-- The struct `plotparam` of lines 61-67. A pointer is `none` for `NULL` and
otherwise the address of a block of the heap. -/
structure plotparam where
  Image : List ℚ
  Plot : Option Nat
  Delays : Option Nat
  IterPerFrame : Int
  NumFrames : Nat

/-- Line 380: the delay stored with a frame, `(State == 0) ? 12 : 120`. -/
def delayOf (State : Int) : Int :=
  if State = 0 then 12 else 120

/-- The function `PlotFun` of lines 275-388. `oPlot`, `oDelays` and `oTemp`
tell what the three allocator calls of lines 315-319 do, should they be
reached. The result is the value returned together with the heap and the
struct behind `ParamPtr` at the return; it is `none` where the C function has
no defined behaviour: the division `Iter % 0` of line 312 (evaluated only
under `State == 0`), a `realloc` of a released block, a read outside `Phi` or
`Image`. The `switch` of lines 289-310 only writes to `stderr`. -/
def PlotFun (State Iter : Int) (Phi : List ℚ) (Width Height : Nat)
    (oPlot oDelays oTemp : AllocOutcome) (heap : Heap) (PlotParam : plotparam) :
    Option (Int × Heap × plotparam) :=
  let NumPixels := Width * Height
  let NumFrames := PlotParam.NumFrames
  if State = 0 ∧ PlotParam.IterPerFrame = 0 then none
  else if State = 0 ∧ Int.tmod Iter PlotParam.IterPerFrame > 0 then
    some (1, heap, PlotParam)
  else
    match realloc heap PlotParam.Plot (3 * Width * Height * (PlotParam.NumFrames + 1))
        oPlot with
    | none => none
    | some (heap1, none) => some (0, heap1, PlotParam)
    | some (heap1, some Plot) =>
      match realloc heap1 PlotParam.Delays (PlotParam.NumFrames + 1) oDelays with
      | none => none
      | some (heap2, none) => some (0, heap2, PlotParam)
      | some (heap2, some Delays) =>
        match malloc heap2 (Width * Height) oTemp with
        | (heap3, none) => some (0, heap3, PlotParam)
        | (heap3, some Temp) =>
          match edgeMap Phi Width Height with
          | none => none
          | some edges =>
            match writeCells heap3 Temp 0 edges with
            | none => none
            | some heap4 =>
              match renderFrame PlotParam.Image edges Width Height with
              | none => none
              | some frame =>
                match writeCells heap4 Plot (3 * NumPixels * PlotParam.NumFrames) frame with
                | none => none
                | some heap5 =>
                  match writeCells heap5 Delays NumFrames [delayOf State] with
                  | none => none
                  | some heap6 =>
                    match free heap6 Temp with
                    | none => none
                    | some heap7 =>
                      some (1, heap7,
                        { PlotParam with
                          Plot := some Plot, Delays := some Delays,
                          NumFrames := PlotParam.NumFrames + 1 })

/-! ## The Frame Set -/

/-- The Frame Set: the captured frames, each of `3*Width*Height` bytes, and
their delays. -/
structure FrameSet where
  frames : List (List Int)
  delays : List Int
  deriving DecidableEq

/-- The frames held by the cells of a frame buffer: frame `k` is the cells
`3*NumPixels*k .. 3*NumPixels*(k+1) - 1`. -/
def framesIn (b : List Int) (NumPixels NumFrames : Nat) : List (List Int) :=
  (List.range NumFrames).map (fun k => (b.drop (3 * NumPixels * k)).take (3 * NumPixels))

/-- The Frame Set that the struct refers to: the first `NumFrames` frames of
the block `Plot` and the first `NumFrames` cells of the block `Delays`. It is
undefined when one of the two pointers is to a released block or when a block
is too short for `NumFrames` entries. -/
def frameSet (heap : Heap) (PlotParam : plotparam) (NumPixels : Nat) : Option FrameSet :=
  match cellsOf heap PlotParam.Plot, cellsOf heap PlotParam.Delays with
  | some b, some d =>
    if 3 * NumPixels * PlotParam.NumFrames ≤ b.length ∧ PlotParam.NumFrames ≤ d.length then
      some ⟨framesIn b NumPixels PlotParam.NumFrames, d.take PlotParam.NumFrames⟩
    else none
  | _, _ => none

/-- The two arrays of a Frame Set are distinct blocks. -/
def separate (PlotParam : plotparam) : Prop :=
  PlotParam.Plot = none ∨ PlotParam.Plot ≠ PlotParam.Delays

/-- One invocation of the callback by the solver. -/
structure Call where
  State : Int
  Iter : Int
  Phi : List ℚ
  oPlot : AllocOutcome
  oDelays : AllocOutcome
  oTemp : AllocOutcome

/-- Modelled from the spec: the solver (`ChanVese`, declared in `chanvese.h`
and not part of these sources) invokes the callback once per iteration, each
time on the state the previous invocation left, and halts at the first
invocation that returns failure. -/
def runCalls (Width Height : Nat) :
    List Call → Heap → plotparam → Option (Int × Heap × plotparam)
  | [], heap, PlotParam => some (1, heap, PlotParam)
  | c :: cs, heap, PlotParam =>
    match PlotFun c.State c.Iter c.Phi Width Height c.oPlot c.oDelays c.oTemp
        heap PlotParam with
    | none => none
    | some (r, heap1, PlotParam1) =>
      if r = 0 then some (0, heap1, PlotParam1)
      else runCalls Width Height cs heap1 PlotParam1

/-- The negation of the test of line 312,
`State == 0 && (Iter % PlotParam->IterPerFrame) > 0`: the call goes on to
capture a frame. -/
def capturing (IterPerFrame : Int) (c : Call) : Bool :=
  !decide (c.State = 0 ∧ Int.tmod c.Iter IterPerFrame > 0)

/-- The state in which `main` (lines 188-209) hands the struct to the solver:
no frame buffer, no delays, no frame. -/
def initialParam (Image : List ℚ) (IterPerFrame : Int) : plotparam :=
  { Image := Image, Plot := none, Delays := none,
    IterPerFrame := IterPerFrame, NumFrames := 0 }

/-! ## Facts about the rounding macro -/

theorem floor_range (x : ℚ) (h0 : ¬ x < 0) (h1 : ¬ x > 1) :
    0 ≤ Int.floor (255 * x + 1 / 2) ∧ Int.floor (255 * x + 1 / 2) ≤ 255 := by
  have h0 : 0 ≤ x := not_lt.mp h0
  have h1 : x ≤ 1 := not_lt.mp h1
  constructor
  · apply Int.floor_nonneg.mpr
    linarith
  · have h : Int.floor (255 * x + 1 / 2) < 256 := by
      apply Int.floor_lt.mpr
      push_cast
      linarith
    omega

theorem ROUNDCLAMP_mid (x : ℚ) (h0 : ¬ x < 0) (h1 : ¬ x > 1) :
    ROUNDCLAMP x = Int.floor (255 * x + 1 / 2) := by
  obtain ⟨ha, hb⟩ := floor_range x h0 h1
  unfold ROUNDCLAMP
  rw [if_neg h0, if_neg h1]
  omega

theorem ROUNDCLAMP_eq_clamp (x : ℚ) :
    ROUNDCLAMP x = max 0 (min 255 (Int.floor (255 * x + 1 / 2))) := by
  by_cases h0 : x < 0
  · have hf : Int.floor (255 * x + 1 / 2) ≤ 0 := by
      have h : Int.floor (255 * x + 1 / 2) < 1 := by
        apply Int.floor_lt.mpr
        push_cast
        linarith
      omega
    unfold ROUNDCLAMP
    rw [if_pos h0]
    omega
  · by_cases h1 : x > 1
    · have hf : 255 ≤ Int.floor (255 * x + 1 / 2) := by
        apply Int.le_floor.mpr
        push_cast
        linarith
      unfold ROUNDCLAMP
      rw [if_neg h0, if_pos h1]
      omega
    · obtain ⟨ha, hb⟩ := floor_range x h0 h1
      rw [ROUNDCLAMP_mid x h0 h1]
      omega

theorem ROUNDCLAMP_mono (x y : ℚ) (h : x ≤ y) : ROUNDCLAMP x ≤ ROUNDCLAMP y := by
  rw [ROUNDCLAMP_eq_clamp, ROUNDCLAMP_eq_clamp]
  have hf : Int.floor (255 * x + 1 / 2) ≤ Int.floor (255 * y + 1 / 2) := by
    apply Int.floor_mono
    linarith
  omega

theorem ROUNDCLAMP_zero : ROUNDCLAMP 0 = 0 := by
  rw [ROUNDCLAMP_eq_clamp]
  norm_num

theorem ROUNDCLAMP_one : ROUNDCLAMP 1 = 255 := by
  rw [ROUNDCLAMP_eq_clamp]
  have h : Int.floor ((255 : ℚ) * 1 + 1 / 2) = 255 := by
    rw [Int.floor_eq_iff]
    constructor <;> norm_num
  rw [h]
  rfl

/-! ## Lists of results and the order of the pixels -/

theorem allSome_map_some {α β : Type} (l : List α) (f : α → Option β) (g : α → β)
    (h : ∀ p ∈ l, f p = some (g p)) : allSome (l.map f) = some (l.map g) := by
  induction l with
  | nil => rfl
  | cons a t ih =>
    have ha : f a = some (g a) := h a (List.mem_cons_self a t)
    have ht : allSome (t.map f) = some (t.map g) :=
      ih (fun p hp => h p (List.mem_cons_of_mem a hp))
    simp [allSome, ha, ht]

theorem allSome_map_none {α β : Type} (l : List α) (f : α → Option β) (a : α)
    (ha : a ∈ l) (h : f a = none) : allSome (l.map f) = none := by
  induction l with
  | nil => cases ha
  | cons b t ih =>
    rcases List.mem_cons.mp ha with hb | hb
    · subst hb
      simp [allSome, h]
    · cases hfb : f b with
      | none => simp [allSome, hfb]
      | some v => simp [allSome, hfb, ih hb]

theorem mem_pixels (Width Height : Nat) (p : Nat × Nat) :
    p ∈ pixels Width Height ↔ p.1 < Width ∧ p.2 < Height := by
  obtain ⟨x, y⟩ := p
  simp only [pixels, List.mem_flatMap, List.mem_range, List.mem_map, Prod.mk.injEq]
  constructor
  · rintro ⟨b, hb, a, ha, rfl, rfl⟩
    exact ⟨ha, hb⟩
  · rintro ⟨hx, hy⟩
    exact ⟨y, hy, x, hx, rfl, rfl⟩

theorem pixels_succ (Width Height : Nat) :
    pixels Width (Height + 1) =
      pixels Width Height ++ (List.range Width).map (fun x => (x, Height)) := by
  simp [pixels, List.range_succ, List.flatMap_append]

theorem length_pixels (Width Height : Nat) :
    (pixels Width Height).length = Width * Height := by
  induction Height with
  | zero => simp [pixels]
  | succ n ih =>
    rw [pixels_succ, List.length_append, ih, List.length_map, List.length_range]
    ring

theorem pixels_getElem? (Width Height x y : Nat) (hx : x < Width) (hy : y < Height) :
    (pixels Width Height)[x + Width * y]? = some (x, y) := by
  induction Height with
  | zero => omega
  | succ n ih =>
    rw [pixels_succ]
    by_cases hyn : y < n
    · have hlt : x + Width * y < (pixels Width n).length := by
        rw [length_pixels]
        have : Width * (y + 1) ≤ Width * n := Nat.mul_le_mul_left Width hyn
        rw [Nat.mul_succ] at this
        omega
      rw [List.getElem?_append_left hlt]
      exact ih hyn
    · have hyeq : y = n := by omega
      subst hyeq
      have hge : (pixels Width y).length ≤ x + Width * y := by
        rw [length_pixels]
        omega
      rw [List.getElem?_append_right hge, length_pixels]
      have hsub : x + Width * y - Width * y = x := by omega
      rw [hsub, List.getElem?_map, List.getElem?_range hx]
      rfl

theorem index_lt (Width Height x y : Nat) (hx : x < Width) (hy : y < Height) :
    x + Width * y < Width * Height := by
  have : Width * (y + 1) ≤ Width * Height := Nat.mul_le_mul_left Width hy
  rw [Nat.mul_succ] at this
  omega

/-- Reading the list built over the pixels at the index of the pixel `(x, y)`. -/
theorem pixels_map_getElem? {β : Type} (Width Height x y : Nat) (g : Nat × Nat → β)
    (hx : x < Width) (hy : y < Height) :
    ((pixels Width Height).map g)[x + Width * y]? = some (g (x, y)) := by
  rw [List.getElem?_map, pixels_getElem? Width Height x y hx hy]
  rfl

/-! ## The edge indicator -/

theorem isNeg_eq (Phi : List ℚ) (k : Nat) (hk : k < Phi.length) :
    isNeg Phi k = some (decide (Phi.getD k 0 < 0)) := by
  unfold isNeg
  rw [List.getD_eq_getElem?_getD, List.getElem?_eq_getElem hk]
  rfl

theorem edgeAt_eq (Phi : List ℚ) (Width Height x y : Nat)
    (hPhi : Width * Height ≤ Phi.length) (hx : x < Width) (hy : y < Height) :
    edgeAt Phi Width Height x y =
      some (if edgeClamped Phi Width Height x y then 1 else 0) := by
  have hi : x + Width * y < Width * Height := index_lt Width Height x y hx hy
  have hi2 : x + Width * y < Phi.length := by omega
  have hc : Phi[x + Width * y]? = some (Phi.getD (x + Width * y) 0) := by
    rw [List.getD_eq_getElem?_getD, List.getElem?_eq_getElem hi2]
    rfl
  unfold edgeAt edgeClamped
  simp only [hc]
  by_cases h0 : Phi.getD (x + Width * y) 0 ≥ 0
  · rw [if_pos h0]
    have h0' : ¬ Phi.getD (x + Width * y) 0 < 0 := not_lt.mpr h0
    -- left neighbour
    have hl : cAnd (decide (x > 0)) (isNeg Phi (x + Width * y - 1)) =
        some (decide (Phi.getD ((x - 1) + Width * y) 0 < 0)) := by
      by_cases hx0 : x > 0
      · have e : x + Width * y - 1 = (x - 1) + Width * y := by omega
        rw [e, isNeg_eq Phi _ (by omega)]
        simp [cAnd, hx0]
      · have e : x = 0 := by omega
        subst e
        simp only [Nat.zero_add] at h0
        simp [cAnd, h0, -List.getD_eq_getElem?_getD]
    -- right neighbour
    have hr : cAnd (decide (x + 1 < Width)) (isNeg Phi (x + Width * y + 1)) =
        some (decide (Phi.getD (min (x + 1) (Width - 1) + Width * y) 0 < 0)) := by
      by_cases hx1 : x + 1 < Width
      · have e : min (x + 1) (Width - 1) + Width * y = x + Width * y + 1 := by
          rw [Nat.min_eq_left (by omega)]
          omega
        have hb : x + Width * y + 1 < Phi.length := by
          have := index_lt Width Height (x + 1) y hx1 hy
          omega
        rw [e, isNeg_eq Phi _ hb]
        simp [cAnd, hx1]
      · have e : min (x + 1) (Width - 1) = x := by
          rw [Nat.min_eq_right (by omega)]
          omega
        rw [e]
        simp [cAnd, hx1, h0', -List.getD_eq_getElem?_getD]
    -- upper neighbour
    have hu : cAnd (decide (y > 0)) (isNeg Phi (x + Width * y - Width)) =
        some (decide (Phi.getD (x + Width * (y - 1)) 0 < 0)) := by
      by_cases hy0 : y > 0
      · have e : x + Width * y - Width = x + Width * (y - 1) := by
          obtain ⟨z, rfl⟩ : ∃ z, y = z + 1 := ⟨y - 1, by omega⟩
          rw [Nat.mul_succ]
          simp
          omega
        have hb : x + Width * (y - 1) < Phi.length := by
          have := index_lt Width Height x (y - 1) hx (by omega)
          omega
        rw [e, isNeg_eq Phi _ hb]
        simp [cAnd, hy0]
      · have e : y = 0 := by omega
        subst e
        simp only [Nat.mul_zero, Nat.add_zero] at h0'
        simp [cAnd, h0', -List.getD_eq_getElem?_getD]
    -- lower neighbour
    have hd : cAnd (decide (y + 1 < Height)) (isNeg Phi (x + Width * y + Width)) =
        some (decide (Phi.getD (x + Width * min (y + 1) (Height - 1)) 0 < 0)) := by
      by_cases hy1 : y + 1 < Height
      · have e : x + Width * min (y + 1) (Height - 1) = x + Width * y + Width := by
          rw [Nat.min_eq_left (by omega), Nat.mul_succ]
          omega
        have hb : x + Width * y + Width < Phi.length := by
          have := index_lt Width Height x (y + 1) hx hy1
          rw [Nat.mul_succ] at this
          omega
        rw [e, isNeg_eq Phi _ hb]
        simp [cAnd, hy1]
      · have e : min (y + 1) (Height - 1) = y := by
          rw [Nat.min_eq_right (by omega)]
          omega
        rw [e]
        simp [cAnd, hy1, h0', -List.getD_eq_getElem?_getD]
    rw [hl, hr, hu, hd]
    by_cases a1 : Phi.getD ((x - 1) + Width * y) 0 < 0 <;>
    by_cases a2 : Phi.getD (min (x + 1) (Width - 1) + Width * y) 0 < 0 <;>
    by_cases a3 : Phi.getD (x + Width * (y - 1)) 0 < 0 <;>
    by_cases a4 : Phi.getD (x + Width * min (y + 1) (Height - 1)) 0 < 0 <;>
    simp [cOr, a1, a2, a3, a4, h0, -List.getD_eq_getElem?_getD]
  · rw [if_neg h0]
    simp [h0, -List.getD_eq_getElem?_getD]

theorem edgeMap_eq (Phi : List ℚ) (Width Height : Nat)
    (hPhi : Width * Height ≤ Phi.length) :
    edgeMap Phi Width Height =
      some ((pixels Width Height).map
        (fun p => if edgeClamped Phi Width Height p.1 p.2 then 1 else 0)) := by
  unfold edgeMap
  apply allSome_map_some
  intro p hp
  obtain ⟨hx, hy⟩ := (mem_pixels Width Height p).mp hp
  exact edgeAt_eq Phi Width Height p.1 p.2 hPhi hx hy

/-! ## The compositing loop -/

theorem allSome_defined {α β : Type} (l : List α) (f : α → Option β)
    (h : ∀ p ∈ l, ∃ v, f p = some v) : ∃ r, allSome (l.map f) = some r := by
  induction l with
  | nil => exact ⟨[], rfl⟩
  | cons a t ih =>
    obtain ⟨v, hv⟩ := h a (List.mem_cons_self a t)
    obtain ⟨r, hr⟩ := ih (fun p hp => h p (List.mem_cons_of_mem a hp))
    exact ⟨v :: r, by simp [allSome, hv, hr]⟩

theorem allSome_get {α β : Type} (l : List α) (f : α → Option β) (r : List β)
    (h : allSome (l.map f) = some r) :
    r.length = l.length ∧ ∀ (i : Nat) (p : α), l[i]? = some p → f p = r[i]? := by
  induction l generalizing r with
  | nil =>
    simp only [List.map_nil, allSome, Option.some.injEq] at h
    subst h
    simp
  | cons a t ih =>
    cases hfa : f a with
    | none => simp [allSome, hfa] at h
    | some v =>
      cases hrt : allSome (t.map f) with
      | none => simp [allSome, hfa, hrt] at h
      | some r1 =>
        simp only [List.map_cons, allSome, hfa, hrt, Option.map_some', Option.some.injEq] at h
        subst h
        obtain ⟨hlen, hget⟩ := ih r1 hrt
        refine ⟨by simp [hlen], ?_⟩
        intro i p hp
        cases i with
        | zero =>
          simp only [List.getElem?_cons_zero, Option.some.injEq] at hp
          subst hp
          simp [hfa]
        | succ j =>
          simp only [List.getElem?_cons_succ] at hp
          simp only [List.getElem?_cons_succ]
          exact hget j p hp

theorem flatten_triples (L : List (List Int)) (h : ∀ t ∈ L, t.length = 3)
    (i c : Nat) (hc : c < 3) :
    L.flatten[3 * i + c]? = (L[i]?).bind (fun t => t[c]?) := by
  induction L generalizing i with
  | nil => simp
  | cons t rest ih =>
    have ht : t.length = 3 := h t (List.mem_cons_self t rest)
    have hrest : ∀ s ∈ rest, s.length = 3 := fun s hs => h s (List.mem_cons_of_mem t hs)
    rw [List.flatten_cons]
    cases i with
    | zero =>
      rw [List.getElem?_append_left (by omega)]
      simp
    | succ j =>
      rw [List.getElem?_append_right (by omega), ht]
      have e : 3 * (j + 1) + c - 3 = 3 * j + c := by omega
      rw [e, ih hrest j]
      simp

theorem length_flatten_triples (L : List (List Int)) (h : ∀ t ∈ L, t.length = 3) :
    L.flatten.length = 3 * L.length := by
  induction L with
  | nil => simp
  | cons t rest ih =>
    have ht : t.length = 3 := h t (List.mem_cons_self t rest)
    have hrest : ∀ s ∈ rest, s.length = 3 := fun s hs => h s (List.mem_cons_of_mem t hs)
    rw [List.flatten_cons, List.length_append, ih hrest, ht, List.length_cons]
    ring

theorem readTemp_nat (Temp : List Int) (n : Nat) : readTemp Temp (n : Int) = Temp[n]? := by
  unfold readTemp
  have h : ¬ ((n : Int) < 0) := by omega
  rw [if_neg h, Int.toNat_ofNat]

/-- The value of `Alpha` before the clamp, when every cell of `Temp` is
known: the cell of the pixel `(a, b)` holds `e a b`. -/
theorem alphaRaw_eq (Temp : List Int) (Width Height x y : Nat) (e : Nat → Nat → Int)
    (hT : ∀ a b, a < Width → b < Height → Temp[a + Width * b]? = some (e a b))
    (hx : x < Width) (hy : y < Height) :
    alphaRaw Temp Width Height x y =
      some (((4 * e x y + e (if x + 1 = Width then x else x + 1) y + e (x - 1) y
        + e x (if y + 1 = Height then y else y + 1) + e x (y - 1) : Int) : ℚ) / 4) := by
  have h1 : readTemp Temp ((x : Int) + (Width : Int) * (y : Int)) = some (e x y) := by
    have c : (x : Int) + (Width : Int) * (y : Int) = ((x + Width * y : Nat) : Int) := by
      push_cast
      ring
    rw [c, readTemp_nat]
    exact hT x y hx hy
  have h2 : readTemp Temp ((x : Int) + (Width : Int) * (y : Int)
      + (if (x : Int) = (Width : Int) - 1 then 0 else 1)) =
      some (e (if x + 1 = Width then x else x + 1) y) := by
    by_cases hw : x + 1 = Width
    · have hw2 : (x : Int) = (Width : Int) - 1 := by omega
      rw [if_pos hw2, if_pos hw, add_zero]
      exact h1
    · have hw2 : ¬ (x : Int) = (Width : Int) - 1 := by omega
      rw [if_neg hw2, if_neg hw]
      have c : (x : Int) + (Width : Int) * (y : Int) + 1 = ((x + 1 + Width * y : Nat) : Int) := by
        push_cast
        ring
      rw [c, readTemp_nat]
      exact hT (x + 1) y (by omega) hy
  have h3 : readTemp Temp ((x : Int) + (Width : Int) * (y : Int)
      + (if x = 0 then 0 else -1)) = some (e (x - 1) y) := by
    by_cases hw : x = 0
    · rw [if_pos hw, add_zero]
      subst hw
      exact h1
    · rw [if_neg hw]
      obtain ⟨z, rfl⟩ : ∃ z, x = z + 1 := ⟨x - 1, by omega⟩
      have c : ((z + 1 : Nat) : Int) + (Width : Int) * (y : Int) + -1
          = ((z + Width * y : Nat) : Int) := by
        push_cast
        ring
      rw [c, readTemp_nat, Nat.add_sub_cancel]
      exact hT z y (by omega) hy
  have h4 : readTemp Temp ((x : Int) + (Width : Int) * (y : Int)
      + (if (y : Int) = (Height : Int) - 1 then 0 else (Width : Int))) =
      some (e x (if y + 1 = Height then y else y + 1)) := by
    by_cases hw : y + 1 = Height
    · have hw2 : (y : Int) = (Height : Int) - 1 := by omega
      rw [if_pos hw2, if_pos hw, add_zero]
      exact h1
    · have hw2 : ¬ (y : Int) = (Height : Int) - 1 := by omega
      rw [if_neg hw2, if_neg hw]
      have c : (x : Int) + (Width : Int) * (y : Int) + (Width : Int)
          = ((x + Width * (y + 1) : Nat) : Int) := by
        push_cast
        ring
      rw [c, readTemp_nat]
      exact hT x (y + 1) hx (by omega)
  have h5 : readTemp Temp ((x : Int) + (Width : Int) * (y : Int)
      + (if y = 0 then 0 else -(Width : Int))) = some (e x (y - 1)) := by
    by_cases hw : y = 0
    · rw [if_pos hw, add_zero]
      subst hw
      exact h1
    · rw [if_neg hw]
      obtain ⟨z, rfl⟩ : ∃ z, y = z + 1 := ⟨y - 1, by omega⟩
      have c : (x : Int) + (Width : Int) * ((z + 1 : Nat) : Int) + -(Width : Int)
          = ((x + Width * z : Nat) : Int) := by
        push_cast
        ring
      rw [c, readTemp_nat, Nat.add_sub_cancel]
      exact hT x z hx (by omega)
  unfold alphaRaw
  simp only [h1, h2, h3, h4, h5]

theorem cells_of_length (Temp : List Int) (Width Height : Nat)
    (hT : Width * Height ≤ Temp.length) :
    ∀ a b, a < Width → b < Height →
      Temp[a + Width * b]? = some (Temp.getD (a + Width * b) 0) := by
  intro a b ha hb
  have h := index_lt Width Height a b ha hb
  rw [List.getD_eq_getElem?_getD, List.getElem?_eq_getElem (by omega)]
  rfl

theorem pixelInputs_eq (Image : List ℚ) (NumPixels i : Nat)
    (hI : 3 * NumPixels ≤ Image.length) (hi : i < NumPixels) :
    pixelInputs Image NumPixels i =
      some (Image.getD i 0, Image.getD (i + NumPixels) 0, Image.getD (i + 2 * NumPixels) 0) := by
  unfold pixelInputs
  rw [List.getD_eq_getElem?_getD, List.getD_eq_getElem?_getD, List.getD_eq_getElem?_getD,
    List.getElem?_eq_getElem (show i < Image.length by omega),
    List.getElem?_eq_getElem (show i + NumPixels < Image.length by omega),
    List.getElem?_eq_getElem (show i + 2 * NumPixels < Image.length by omega)]
  rfl

theorem length_blend (Alpha Red Green Blue : ℚ) :
    (blend Alpha Red Green Blue).length = 3 := rfl

theorem pixelAt_length (Image : List ℚ) (Temp : List Int) (Width Height x y : Nat)
    (t : List Int) (h : pixelAt Image Temp Width Height x y = some t) : t.length = 3 := by
  unfold pixelAt at h
  cases hin : pixelInputs Image (Width * Height) (x + Width * y) with
  | none => simp [hin] at h
  | some rgb =>
    obtain ⟨R, G, B⟩ := rgb
    cases ha : alphaRaw Temp Width Height x y with
    | none => simp [hin, ha] at h
    | some a =>
      simp only [hin, ha, Option.some.injEq] at h
      rw [← h]
      rfl

/-- The frame is defined as soon as the image holds three planes and `Temp`
a cell for every pixel. -/
theorem renderFrame_defined (Image : List ℚ) (Temp : List Int) (Width Height : Nat)
    (hI : 3 * (Width * Height) ≤ Image.length) (hT : Width * Height ≤ Temp.length) :
    ∃ frame, renderFrame Image Temp Width Height = some frame := by
  have hall : ∀ p ∈ pixels Width Height,
      ∃ v, (fun p : Nat × Nat => pixelAt Image Temp Width Height p.1 p.2) p = some v := by
    intro p hp
    obtain ⟨hx, hy⟩ := (mem_pixels Width Height p).mp hp
    have hin := pixelInputs_eq Image (Width * Height) (p.1 + Width * p.2) hI
      (index_lt Width Height p.1 p.2 hx hy)
    have ha := alphaRaw_eq Temp Width Height p.1 p.2 _
      (cells_of_length Temp Width Height hT) hx hy
    simp only [pixelAt, hin, ha]
    exact ⟨_, rfl⟩
  obtain ⟨r, hr⟩ := allSome_defined (pixels Width Height) _ hall
  exact ⟨r.flatten, by simp [renderFrame, hr]⟩

/-- The bytes of a defined frame: its length, and the three bytes of the
pixel `(x, y)` at the indices `3*i + c`, `i = x + Width*y`. -/
theorem renderFrame_get (Image : List ℚ) (Temp : List Int) (Width Height : Nat)
    (frame : List Int) (h : renderFrame Image Temp Width Height = some frame) :
    frame.length = 3 * (Width * Height) ∧
    ∀ x y, x < Width → y < Height →
      ∃ t, pixelAt Image Temp Width Height x y = some t ∧
        ∀ c, c < 3 → frame[3 * (x + Width * y) + c]? = t[c]? := by
  unfold renderFrame at h
  cases hr : allSome ((pixels Width Height).map
      (fun p => pixelAt Image Temp Width Height p.1 p.2)) with
  | none => simp [hr] at h
  | some r =>
    simp only [hr, Option.map_some', Option.some.injEq] at h
    subst h
    obtain ⟨hlen, hget⟩ := allSome_get _ _ r hr
    have h3 : ∀ t ∈ r, t.length = 3 := by
      intro t ht
      obtain ⟨n, hn⟩ := List.mem_iff_getElem?.mp ht
      have hn2 : n < (pixels Width Height).length := by
        have := (List.getElem?_eq_some.mp hn).1
        omega
      have hp := hget n _ (List.getElem?_eq_getElem hn2)
      rw [hn] at hp
      exact pixelAt_length Image Temp Width Height _ _ t hp
    refine ⟨by rw [length_flatten_triples r h3, hlen, length_pixels], ?_⟩
    intro x y hx hy
    have hp := hget (x + Width * y) (x, y) (pixels_getElem? Width Height x y hx hy)
    have hsome : ∃ t, r[x + Width * y]? = some t := by
      have hlt : x + Width * y < r.length := by
        rw [hlen, length_pixels]
        exact index_lt Width Height x y hx hy
      exact ⟨_, List.getElem?_eq_getElem hlt⟩
    obtain ⟨t, ht⟩ := hsome
    refine ⟨t, by rw [← ht]; exact hp, ?_⟩
    intro c hc
    rw [flatten_triples r h3 _ c hc, ht]
    rfl

theorem length_edgeMap (Phi : List ℚ) (Width Height : Nat) (Temp : List Int)
    (h : edgeMap Phi Width Height = some Temp) : Temp.length = Width * Height := by
  have := (allSome_get _ _ Temp h).1
  rw [this, length_pixels]

/-- The composited frame is defined, and of `3*Width*Height` bytes, as soon
as the image holds three planes and the boundary field one. -/
theorem compositeFrame_defined (Image Phi : List ℚ) (Width Height : Nat)
    (hI : 3 * (Width * Height) ≤ Image.length) (hPhi : Width * Height ≤ Phi.length) :
    ∃ Temp frame, edgeMap Phi Width Height = some Temp ∧
      renderFrame Image Temp Width Height = some frame ∧
      compositeFrame Image Phi Width Height = some frame ∧
      Temp.length = Width * Height ∧ frame.length = 3 * (Width * Height) := by
  have hE := edgeMap_eq Phi Width Height hPhi
  have hlen := length_edgeMap Phi Width Height _ hE
  obtain ⟨frame, hf⟩ := renderFrame_defined Image _ Width Height hI (le_of_eq hlen.symm)
  refine ⟨_, frame, hE, hf, ?_, hlen, (renderFrame_get Image _ Width Height frame hf).1⟩
  simp only [compositeFrame, hE, hf]

theorem pixelAt_eq (Image : List ℚ) (Temp : List Int) (Width Height x y : Nat)
    (e : Nat → Nat → Int)
    (hI : 3 * (Width * Height) ≤ Image.length)
    (hT : ∀ a b, a < Width → b < Height → Temp[a + Width * b]? = some (e a b))
    (hx : x < Width) (hy : y < Height) :
    pixelAt Image Temp Width Height x y =
      some (blend
        (clampAlpha (((4 * e x y + e (if x + 1 = Width then x else x + 1) y + e (x - 1) y
          + e x (if y + 1 = Height then y else y + 1) + e x (y - 1) : Int) : ℚ) / 4))
        (Image.getD (x + Width * y) 0)
        (Image.getD (x + Width * y + Width * Height) 0)
        (Image.getD (x + Width * y + 2 * (Width * Height)) 0)) := by
  have hin := pixelInputs_eq Image (Width * Height) (x + Width * y) hI
    (index_lt Width Height x y hx hy)
  have ha := alphaRaw_eq Temp Width Height x y e hT hx hy
  simp only [pixelAt, hin, ha]

/-- Every index below `Width*Height` is the index of a pixel. -/
theorem index_split (Width Height i : Nat) (hi : i < Width * Height) :
    i % Width < Width ∧ i / Width < Height ∧ i % Width + Width * (i / Width) = i := by
  have hW : 0 < Width := by
    rcases Nat.eq_zero_or_pos Width with h | h
    · subst h
      simp at hi
    · exact h
  exact ⟨Nat.mod_lt i hW, Nat.div_lt_of_lt_mul hi, Nat.mod_add_div i Width⟩

theorem blend_zero (Red Green Blue : ℚ) :
    blend 0 Red Green Blue =
      [ROUNDCLAMP (darkening * Red), ROUNDCLAMP (darkening * Green),
        ROUNDCLAMP (darkening * Blue)] := by
  simp [blend]

theorem blend_one (Red Green Blue : ℚ) : blend 1 Red Green Blue = [0, 0, 255] := by
  simp [blend, ROUNDCLAMP_zero, ROUNDCLAMP_one]

theorem getD_not_neg (Phi : List ℚ) (h : ∀ v ∈ Phi, 0 ≤ v) (k : Nat) :
    ¬ Phi.getD k 0 < 0 := by
  rw [List.getD_eq_getElem?_getD]
  cases hk : Phi[k]? with
  | none => simp
  | some v =>
    have hv : v ∈ Phi := List.mem_iff_getElem?.mpr ⟨k, hk⟩
    simpa using h v hv

theorem getD_neg (Phi : List ℚ) (h : ∀ v ∈ Phi, v < 0) (k : Nat) (hk : k < Phi.length) :
    Phi.getD k 0 < 0 := by
  rw [List.getD_eq_getElem?_getD, List.getElem?_eq_getElem hk]
  exact h _ (List.getElem_mem hk)

theorem no_edge_of_no_sign_change (Phi : List ℚ) (Width Height x y : Nat)
    (hPhi : Width * Height ≤ Phi.length) (hx : x < Width) (hy : y < Height)
    (hsign : (∀ v ∈ Phi, v < 0) ∨ (∀ v ∈ Phi, 0 ≤ v)) :
    ¬ edgeClamped Phi Width Height x y := by
  unfold edgeClamped
  rcases hsign with hneg | hpos
  · intro h
    have := getD_neg Phi hneg (x + Width * y)
      (by have := index_lt Width Height x y hx hy; omega)
    exact absurd h.1 (not_le.mpr this)
  · intro h
    rcases h.2 with h1 | h1 | h1 | h1 <;> exact getD_not_neg Phi hpos _ h1

theorem edge_cells (Phi : List ℚ) (Width Height : Nat) (Temp : List Int)
    (hPhi : Width * Height ≤ Phi.length) (hE : edgeMap Phi Width Height = some Temp) :
    ∀ a b, a < Width → b < Height →
      Temp[a + Width * b]? =
        some ((fun a b => if edgeClamped Phi Width Height a b then (1 : Int) else 0) a b) := by
  intro a b ha hb
  have h1 := edgeMap_eq Phi Width Height hPhi
  rw [hE, Option.some.injEq] at h1
  rw [h1, pixels_map_getElem? Width Height a b _ ha hb]

theorem index_inj (Width x y a b : Nat) (hx : x < Width) (ha : a < Width)
    (h : x + Width * y = a + Width * b) : x = a ∧ y = b := by
  have h1 : (x + Width * y) % Width = x := by
    rw [Nat.add_mul_mod_self_left, Nat.mod_eq_of_lt hx]
  have h2 : (a + Width * b) % Width = a := by
    rw [Nat.add_mul_mod_self_left, Nat.mod_eq_of_lt ha]
  have hxa : x = a := by rw [← h1, ← h2, h]
  subst hxa
  have hW : 0 < Width := by omega
  have : Width * y = Width * b := by omega
  exact ⟨rfl, Nat.eq_of_mul_eq_mul_left hW this⟩

/-! ## The heap -/

theorem blockAt_lt (heap : Heap) (a : Nat) (b : List Int) (h : blockAt heap a = some b) :
    a < heap.length := by
  by_contra hge
  have : heap[a]? = none := List.getElem?_eq_none (by omega)
  simp [blockAt, this] at h

theorem blockAt_set_same (heap : Heap) (a : Nat) (v : Option (List Int))
    (h : a < heap.length) : blockAt (heap.set a v) a = v := by
  unfold blockAt
  rw [List.getElem?_set]
  simp only [if_true, if_pos h]
  cases v <;> rfl

theorem blockAt_set_ne (heap : Heap) (a c : Nat) (v : Option (List Int)) (h : a ≠ c) :
    blockAt (heap.set a v) c = blockAt heap c := by
  unfold blockAt
  rw [List.getElem?_set, if_neg h]

theorem blockAt_append_lt (heap : Heap) (c : Nat) (v : Option (List Int))
    (h : c < heap.length) : blockAt (heap ++ [v]) c = blockAt heap c := by
  unfold blockAt
  rw [List.getElem?_append_left h]

theorem blockAt_append_new (heap : Heap) (b : List Int) :
    blockAt (heap ++ [some b]) heap.length = some b := by
  unfold blockAt
  rw [List.getElem?_append_right (le_refl _)]
  simp

theorem length_resize (b : List Int) (n : Nat) : (resize b n).length = n := by
  unfold resize
  rw [List.length_take, List.length_append, List.length_replicate]
  omega

theorem take_resize (b : List Int) (n k : Nat) (hk : k ≤ b.length) (hn : k ≤ n) :
    (resize b n).take k = b.take k := by
  unfold resize
  rw [List.take_take, Nat.min_eq_left hn, List.take_append_of_le_length hk]

theorem resize_nil (n : Nat) : resize [] n = List.replicate n 0 := by
  unfold resize
  rw [List.nil_append]
  exact List.take_of_length_le (by simp)

/-- A successful `realloc` on `NULL` or on a live block: the block returned
holds the resized cells, it is the old block or a fresh one, and every other
block is untouched. -/
theorem realloc_ok (heap : Heap) (p : Option Nat) (b : List Int) (n : Nat)
    (o : AllocOutcome) (hp : cellsOf heap p = some b) (ho : o ≠ AllocOutcome.fail) :
    ∃ heap1 q, realloc heap p n o = some (heap1, some q) ∧
      blockAt heap1 q = some (resize b n) ∧ q < heap1.length ∧
      heap.length ≤ heap1.length ∧ (q < heap.length → p = some q) ∧
      (∀ c, c < heap.length → p ≠ some c → blockAt heap1 c = blockAt heap c) := by
  cases p with
  | none =>
    simp only [cellsOf, Option.some.injEq] at hp
    subst hp
    refine ⟨heap ++ [some (List.replicate n 0)], heap.length, ?_, ?_, by simp, by simp,
      fun h => absurd h (lt_irrefl _), fun c hc _ => blockAt_append_lt heap c _ hc⟩
    · cases o <;> simp_all [realloc, malloc]
    · rw [resize_nil]
      exact blockAt_append_new heap _
  | some a =>
    simp only [cellsOf] at hp
    have ha := blockAt_lt heap a b hp
    cases o with
    | fail => exact absurd rfl ho
    | inPlace =>
      refine ⟨heap.set a (some (resize b n)), a, by simp [realloc, hp],
        blockAt_set_same heap a _ ha, by simp [ha], by simp, fun _ => rfl, ?_⟩
      intro c _ hne
      exact blockAt_set_ne heap a c _ (fun h => hne (by rw [h]))
    | moved =>
      refine ⟨heap.set a none ++ [some (resize b n)], heap.length, by simp [realloc, hp],
        ?_, by simp, by simp, fun h => absurd h (lt_irrefl _), ?_⟩
      · have := blockAt_append_new (heap.set a none) (resize b n)
        rw [List.length_set] at this
        exact this
      · intro c hc hne
        rw [blockAt_append_lt _ c _ (by simp [hc])]
        exact blockAt_set_ne heap a c _ (fun h => hne (by rw [h]))

theorem malloc_ok (heap : Heap) (n : Nat) (o : AllocOutcome) (ho : o ≠ AllocOutcome.fail) :
    malloc heap n o = (heap ++ [some (List.replicate n 0)], some heap.length) := by
  cases o <;> simp_all [malloc]

theorem writeCells_ok (heap : Heap) (a off : Nat) (vals b : List Int)
    (hb : blockAt heap a = some b) (hfit : off + vals.length ≤ b.length) :
    writeCells heap a off vals =
      some (heap.set a (some (b.take off ++ vals ++ b.drop (off + vals.length)))) := by
  simp [writeCells, hb, hfit]

theorem free_ok (heap : Heap) (a : Nat) (b : List Int) (hb : blockAt heap a = some b) :
    free heap a = some (heap.set a none) := by
  simp [free, hb]

/-! ## The Frame Set across a capture -/

theorem framesIn_append (b frame : List Int) (NumPixels NumFrames : Nat)
    (hb : 3 * NumPixels * NumFrames ≤ b.length) (hf : frame.length = 3 * NumPixels) :
    framesIn (b.take (3 * NumPixels * NumFrames) ++ frame) NumPixels (NumFrames + 1) =
      framesIn b NumPixels NumFrames ++ [frame] := by
  unfold framesIn
  rw [List.range_succ, List.map_append]
  congr 1
  · apply List.map_congr_left
    intro k hk
    have hk : k < NumFrames := List.mem_range.mp hk
    have hle : 3 * NumPixels * k + 3 * NumPixels ≤ 3 * NumPixels * NumFrames := by
      have := Nat.mul_le_mul_left (3 * NumPixels) (Nat.succ_le_of_lt hk)
      rw [Nat.mul_succ] at this
      exact this
    have hlen : (b.take (3 * NumPixels * NumFrames)).length = 3 * NumPixels * NumFrames := by
      rw [List.length_take]
      omega
    rw [List.drop_append_of_le_length (by omega),
      List.take_append_of_le_length (by rw [List.length_drop]; omega),
      List.drop_take, List.take_take, Nat.min_eq_left (by omega)]
  · have hlen : (b.take (3 * NumPixels * NumFrames)).length = 3 * NumPixels * NumFrames := by
      rw [List.length_take]
      omega
    simp only [List.map_cons, List.map_nil]
    rw [List.drop_append_of_le_length (by omega), List.drop_of_length_le (by omega),
      List.nil_append, List.take_of_length_le (by omega)]

/-- The block written by lines 374-376 into the resized frame buffer. -/
theorem frame_block (b frame : List Int) (n off : Nat) (hoff : off ≤ b.length)
    (hn : off + frame.length = n) :
    (resize b n).take off ++ frame ++ (resize b n).drop (off + frame.length) =
      b.take off ++ frame := by
  rw [take_resize b n off hoff (by omega),
    List.drop_of_length_le (by rw [length_resize]; omega), List.append_nil]

theorem frameSet_some (heap : Heap) (PlotParam : plotparam) (NumPixels : Nat)
    (fs : FrameSet) (h : frameSet heap PlotParam NumPixels = some fs) :
    ∃ b d, cellsOf heap PlotParam.Plot = some b ∧ cellsOf heap PlotParam.Delays = some d ∧
      3 * NumPixels * PlotParam.NumFrames ≤ b.length ∧ PlotParam.NumFrames ≤ d.length ∧
      fs = ⟨framesIn b NumPixels PlotParam.NumFrames, d.take PlotParam.NumFrames⟩ := by
  unfold frameSet at h
  cases hb : cellsOf heap PlotParam.Plot with
  | none => simp [hb] at h
  | some b =>
    cases hd : cellsOf heap PlotParam.Delays with
    | none => simp [hb, hd] at h
    | some d =>
      simp only [hb, hd] at h
      split_ifs at h with hc
      exact ⟨b, d, rfl, rfl, hc.1, hc.2, (Option.some.inj h).symm⟩

/-- The capture path of `PlotFun` (lines 315-383) when the three allocations
succeed: the call returns `1`, the struct refers to a Frame Set that is the
one before with the composited frame and the delay of line 380 appended. -/
theorem PlotFun_capture (State Iter : Int) (Phi : List ℚ) (Width Height : Nat)
    (oPlot oDelays oTemp : AllocOutcome) (heap : Heap) (PlotParam : plotparam)
    (fs : FrameSet)
    (hdiv : ¬ (State = 0 ∧ PlotParam.IterPerFrame = 0))
    (hcap : ¬ (State = 0 ∧ Int.tmod Iter PlotParam.IterPerFrame > 0))
    (hI : 3 * (Width * Height) ≤ PlotParam.Image.length)
    (hPhi : Width * Height ≤ Phi.length)
    (hfs : frameSet heap PlotParam (Width * Height) = some fs)
    (hsep : separate PlotParam)
    (h1 : oPlot ≠ AllocOutcome.fail) (h2 : oDelays ≠ AllocOutcome.fail)
    (h3 : oTemp ≠ AllocOutcome.fail) :
    ∃ heap1 PlotParam1 frame,
      PlotFun State Iter Phi Width Height oPlot oDelays oTemp heap PlotParam
        = some (1, heap1, PlotParam1) ∧
      compositeFrame PlotParam.Image Phi Width Height = some frame ∧
      frame.length = 3 * (Width * Height) ∧
      PlotParam1.NumFrames = PlotParam.NumFrames + 1 ∧
      PlotParam1.Image = PlotParam.Image ∧
      PlotParam1.IterPerFrame = PlotParam.IterPerFrame ∧
      frameSet heap1 PlotParam1 (Width * Height)
        = some ⟨fs.frames ++ [frame], fs.delays ++ [delayOf State]⟩ ∧
      separate PlotParam1 := by
  obtain ⟨b, d, hb, hd, hblen, hdlen, hfseq⟩ :=
    frameSet_some heap PlotParam (Width * Height) fs hfs
  -- the frame buffer
  obtain ⟨heapA, q1, hrA, hbA, hq1, hlenA, holdA, hpresA⟩ :=
    realloc_ok heap PlotParam.Plot b (3 * Width * Height * (PlotParam.NumFrames + 1))
      oPlot hb h1
  have hnotq1 : PlotParam.Delays ≠ some q1 := by
    intro hc
    rw [hc] at hd
    have hlt := blockAt_lt heap q1 d hd
    have hp := holdA hlt
    rcases hsep with hs | hs
    · rw [hs] at hp
      cases hp
    · exact hs (by rw [hp, hc])
  have hdA : cellsOf heapA PlotParam.Delays = some d := by
    cases hD : PlotParam.Delays with
    | none =>
      rw [hD] at hd
      exact hd
    | some dd =>
      rw [hD] at hd
      simp only [cellsOf] at hd ⊢
      rw [hpresA dd (blockAt_lt heap dd d hd)]
      · exact hd
      · intro hc
        rcases hsep with hs | hs
        · rw [hs] at hc
          cases hc
        · exact hs (by rw [hc, hD])
  -- the delays
  obtain ⟨heapB, q2, hrB, hbB, hq2, hlenB, holdB, hpresB⟩ :=
    realloc_ok heapA PlotParam.Delays d (PlotParam.NumFrames + 1) oDelays hdA h2
  have hne12 : q1 ≠ q2 := by
    intro hc
    by_cases hlt : q2 < heapA.length
    · exact hnotq1 (by rw [hc]; exact holdB hlt)
    · omega
  have hq1B : blockAt heapB q1
      = some (resize b (3 * Width * Height * (PlotParam.NumFrames + 1))) := by
    rw [hpresB q1 hq1 hnotq1]
    exact hbA
  -- the edge map
  have hm := malloc_ok heapB (Width * Height) oTemp h3
  obtain ⟨edges, frame, hE, hR, hC, hEl, hFl⟩ :=
    compositeFrame_defined PlotParam.Image Phi Width Height hI hPhi
  have hq1C : blockAt (heapB ++ [some (List.replicate (Width * Height) 0)]) q1
      = some (resize b (3 * Width * Height * (PlotParam.NumFrames + 1))) := by
    rw [blockAt_append_lt heapB q1 _ (by omega)]
    exact hq1B
  have hq2C : blockAt (heapB ++ [some (List.replicate (Width * Height) 0)]) q2
      = some (resize d (PlotParam.NumFrames + 1)) := by
    rw [blockAt_append_lt heapB q2 _ hq2]
    exact hbB
  have hw1 := writeCells_ok (heapB ++ [some (List.replicate (Width * Height) 0)])
    heapB.length 0 edges (List.replicate (Width * Height) 0)
    (blockAt_append_new heapB _) (by simp [hEl])
  generalize hT : List.take 0 (List.replicate (Width * Height) (0 : Int)) ++ edges
    ++ List.drop (0 + edges.length) (List.replicate (Width * Height) 0) = tempCells at hw1
  generalize hH4 : (heapB ++ [some (List.replicate (Width * Height) 0)]).set heapB.length
    (some tempCells) = heap4 at hw1
  have hlen4 : heap4.length = heapB.length + 1 := by
    rw [← hH4]
    simp
  have hq1D : blockAt heap4 q1
      = some (resize b (3 * Width * Height * (PlotParam.NumFrames + 1))) := by
    rw [← hH4, blockAt_set_ne _ _ _ _ (by omega)]
    exact hq1C
  have hq2D : blockAt heap4 q2 = some (resize d (PlotParam.NumFrames + 1)) := by
    rw [← hH4, blockAt_set_ne _ _ _ _ (by omega)]
    exact hq2C
  have hq3D : blockAt heap4 heapB.length = some tempCells := by
    rw [← hH4]
    exact blockAt_set_same _ _ _ (by simp)
  -- the frame
  have hsize : 3 * (Width * Height) * PlotParam.NumFrames + frame.length
      = 3 * Width * Height * (PlotParam.NumFrames + 1) := by
    rw [hFl]
    ring
  have hw2 := writeCells_ok heap4 q1 (3 * (Width * Height) * PlotParam.NumFrames) frame _
    hq1D (by rw [length_resize]; omega)
  rw [frame_block b frame _ _ hblen hsize] at hw2
  generalize hH5 : heap4.set q1
    (some (List.take (3 * (Width * Height) * PlotParam.NumFrames) b ++ frame)) = heap5 at hw2
  have hq1E : blockAt heap5 q1
      = some (List.take (3 * (Width * Height) * PlotParam.NumFrames) b ++ frame) := by
    rw [← hH5]
    exact blockAt_set_same _ _ _ (by omega)
  have hq2E : blockAt heap5 q2 = some (resize d (PlotParam.NumFrames + 1)) := by
    rw [← hH5, blockAt_set_ne _ _ _ _ hne12]
    exact hq2D
  have hq3E : blockAt heap5 heapB.length = some tempCells := by
    rw [← hH5, blockAt_set_ne _ _ _ _ (by omega)]
    exact hq3D
  have hlen5 : heap5.length = heapB.length + 1 := by
    rw [← hH5]
    simp [hlen4]
  -- the delay
  have hw3 := writeCells_ok heap5 q2 PlotParam.NumFrames [delayOf State] _
    hq2E (by rw [length_resize]; simp)
  rw [frame_block d [delayOf State] _ _ hdlen (by simp)] at hw3
  generalize hH6 : heap5.set q2 (some (List.take PlotParam.NumFrames d ++ [delayOf State]))
    = heap6 at hw3
  have hq1F : blockAt heap6 q1
      = some (List.take (3 * (Width * Height) * PlotParam.NumFrames) b ++ frame) := by
    rw [← hH6, blockAt_set_ne _ _ _ _ (fun h => hne12 h.symm)]
    exact hq1E
  have hq2F : blockAt heap6 q2 = some (List.take PlotParam.NumFrames d ++ [delayOf State]) := by
    rw [← hH6]
    exact blockAt_set_same _ _ _ (by omega)
  have hq3F : blockAt heap6 heapB.length = some tempCells := by
    rw [← hH6, blockAt_set_ne _ _ _ _ (by omega)]
    exact hq3E
  have hfree := free_ok heap6 heapB.length tempCells hq3F
  have hq1G : blockAt (heap6.set heapB.length none) q1
      = some (List.take (3 * (Width * Height) * PlotParam.NumFrames) b ++ frame) := by
    rw [blockAt_set_ne _ _ _ _ (by omega)]
    exact hq1F
  have hq2G : blockAt (heap6.set heapB.length none) q2
      = some (List.take PlotParam.NumFrames d ++ [delayOf State]) := by
    rw [blockAt_set_ne _ _ _ _ (by omega)]
    exact hq2F
  refine ⟨heap6.set heapB.length none,
    { PlotParam with Plot := some q1, Delays := some q2,
                     NumFrames := PlotParam.NumFrames + 1 }, frame, ?_, hC, hFl, rfl, rfl, rfl,
    ?_, ?_⟩
  · unfold PlotFun
    simp only [if_neg hdiv, if_neg hcap, hrA, hrB, hm, hE, hw1, hR, hw2, hw3, hfree]
  · simp only [frameSet, cellsOf, hq1G, hq2G]
    rw [if_pos, hfseq, framesIn_append b frame (Width * Height) PlotParam.NumFrames hblen hFl]
    · congr 2
      exact List.take_of_length_le (by simp)
    · constructor
      · rw [List.length_append, List.length_take, hFl, Nat.min_eq_left hblen]
        rw [Nat.mul_succ]
      · simp
        omega
  · right
    intro hc
    exact hne12 (Option.some.inj hc)

/-! ## Sequences of calls -/

theorem PlotFun_skip (Iter : Int) (Phi : List ℚ) (Width Height : Nat)
    (oPlot oDelays oTemp : AllocOutcome) (heap : Heap) (PlotParam : plotparam)
    (hk : PlotParam.IterPerFrame ≠ 0)
    (hskip : Int.tmod Iter PlotParam.IterPerFrame > 0) :
    PlotFun 0 Iter Phi Width Height oPlot oDelays oTemp heap PlotParam
      = some (1, heap, PlotParam) := by
  unfold PlotFun
  simp [hk, hskip]

/-- A run of calls whose allocations all succeed, from a state with a
well-formed Frame Set: every call returns `1`, and the Frame Set grows by one
frame and one delay for each call that passes the test of line 312. -/
theorem runCalls_ok (Width Height : Nat) (cs : List Call) :
    ∀ (heap : Heap) (PlotParam : plotparam) (fs : FrameSet),
    3 * (Width * Height) ≤ PlotParam.Image.length →
    frameSet heap PlotParam (Width * Height) = some fs →
    separate PlotParam →
    (∀ c ∈ cs, Width * Height ≤ c.Phi.length ∧ c.oPlot ≠ AllocOutcome.fail ∧
      c.oDelays ≠ AllocOutcome.fail ∧ c.oTemp ≠ AllocOutcome.fail ∧
      ¬ (c.State = 0 ∧ PlotParam.IterPerFrame = 0)) →
    ∃ heap1 PlotParam1 fs1,
      runCalls Width Height cs heap PlotParam = some (1, heap1, PlotParam1) ∧
      frameSet heap1 PlotParam1 (Width * Height) = some fs1 ∧
      separate PlotParam1 ∧
      PlotParam1.Image = PlotParam.Image ∧
      PlotParam1.IterPerFrame = PlotParam.IterPerFrame ∧
      PlotParam1.NumFrames
        = PlotParam.NumFrames + (cs.filter (capturing PlotParam.IterPerFrame)).length ∧
      fs1.frames.length
        = fs.frames.length + (cs.filter (capturing PlotParam.IterPerFrame)).length ∧
      fs1.delays = fs.delays
        ++ (cs.filter (capturing PlotParam.IterPerFrame)).map (fun c => delayOf c.State) := by
  induction cs with
  | nil =>
    intro heap PlotParam fs _ hfs hsep _
    exact ⟨heap, PlotParam, fs, rfl, hfs, hsep, rfl, rfl, by simp, by simp, by simp⟩
  | cons c cs ih =>
    intro heap PlotParam fs hI hfs hsep hall
    obtain ⟨hPhi, h1, h2, h3, hdiv⟩ := hall c (List.mem_cons_self c cs)
    have hrest : ∀ c1 ∈ cs, Width * Height ≤ c1.Phi.length ∧ c1.oPlot ≠ AllocOutcome.fail ∧
        c1.oDelays ≠ AllocOutcome.fail ∧ c1.oTemp ≠ AllocOutcome.fail ∧
        ¬ (c1.State = 0 ∧ PlotParam.IterPerFrame = 0) :=
      fun c1 hc1 => hall c1 (List.mem_cons_of_mem c hc1)
    by_cases hcap : c.State = 0 ∧ Int.tmod c.Iter PlotParam.IterPerFrame > 0
    · have hk : PlotParam.IterPerFrame ≠ 0 := fun h => hdiv ⟨hcap.1, h⟩
      have hstep := PlotFun_skip c.Iter c.Phi Width Height c.oPlot c.oDelays c.oTemp heap
        PlotParam hk hcap.2
      rw [← hcap.1] at hstep
      obtain ⟨heap1, P1, fs1, hrun, hfs1, hsep1, hIm, hIPF, hNF, hfl, hdl⟩ :=
        ih heap PlotParam fs hI hfs hsep hrest
      have hfilter : (c :: cs).filter (capturing PlotParam.IterPerFrame)
          = cs.filter (capturing PlotParam.IterPerFrame) := by
        rw [List.filter_cons_of_neg]
        simp [capturing, hcap]
      refine ⟨heap1, P1, fs1, ?_, hfs1, hsep1, hIm, hIPF, ?_, ?_, ?_⟩
      · simp only [runCalls, hstep]
        exact hrun
      · rw [hfilter]
        exact hNF
      · rw [hfilter]
        exact hfl
      · rw [hfilter]
        exact hdl
    · obtain ⟨heapA, PA, frame, hstep, -, -, hNFA, hImA, hIPFA, hfsA, hsepA⟩ :=
        PlotFun_capture c.State c.Iter c.Phi Width Height c.oPlot c.oDelays c.oTemp heap
          PlotParam fs hdiv hcap hI hPhi hfs hsep h1 h2 h3
      have hrestA : ∀ c1 ∈ cs, Width * Height ≤ c1.Phi.length ∧
          c1.oPlot ≠ AllocOutcome.fail ∧
          c1.oDelays ≠ AllocOutcome.fail ∧ c1.oTemp ≠ AllocOutcome.fail ∧
          ¬ (c1.State = 0 ∧ PA.IterPerFrame = 0) := by
        intro c1 hc1
        rw [hIPFA]
        exact hrest c1 hc1
      obtain ⟨heap1, P1, fs1, hrun, hfs1, hsep1, hIm, hIPF, hNF, hfl, hdl⟩ :=
        ih heapA PA _ (by rw [hImA]; exact hI) hfsA hsepA hrestA
      have hfilter : (c :: cs).filter (capturing PlotParam.IterPerFrame)
          = c :: cs.filter (capturing PlotParam.IterPerFrame) := by
        rw [List.filter_cons_of_pos]
        simp [capturing, hcap]
      rw [hIPFA] at hNF hfl hdl
      refine ⟨heap1, P1, fs1, ?_, hfs1, hsep1, by rw [hIm, hImA], by rw [hIPF, hIPFA],
        ?_, ?_, ?_⟩
      · simp only [runCalls, hstep]
        exact hrun
      · rw [hfilter, hNF, hNFA, List.length_cons]
        omega
      · rw [hfilter, hfl, List.length_cons]
        simp
        omega
      · rw [hfilter, hdl]
        simp

theorem count_multiples (k M : Nat) :
    ((List.range (M + 1)).filter (fun n => decide (n % k = 0))).length = M / k + 1 := by
  induction M with
  | zero => simp [List.range_succ]
  | succ m ih =>
    rw [List.range_succ, List.filter_append, List.length_append, ih, Nat.succ_div]
    by_cases hd : k ∣ m + 1
    · have : (m + 1) % k = 0 := Nat.mod_eq_zero_of_dvd hd
      simp [hd, this]
    · have : ¬ (m + 1) % k = 0 := fun h => hd (Nat.dvd_of_mod_eq_zero h)
      simp [hd, this]

theorem frameSet_initial (heap : Heap) (Image : List ℚ) (IterPerFrame : Int)
    (NumPixels : Nat) :
    frameSet heap (initialParam Image IterPerFrame) NumPixels = some ⟨[], []⟩ := by
  simp [frameSet, initialParam, cellsOf, framesIn]

theorem separate_initial (Image : List ℚ) (IterPerFrame : Int) :
    separate (initialParam Image IterPerFrame) := Or.inl rfl

/-! ## The grey level 70 -/

theorem ROUNDCLAMP_darkened_grey70 : ROUNDCLAMP (darkening * (14 / 51)) = 66 := by
  have h0 : ¬ darkening * (14 / 51) < 0 := by
    unfold darkening
    norm_num
  have h1 : ¬ darkening * (14 / 51) > 1 := by
    unfold darkening
    norm_num
  rw [ROUNDCLAMP_mid _ h0 h1, Int.floor_eq_iff]
  unfold darkening
  constructor <;> norm_num

theorem ROUNDCLAMP_exact_grey70 : ROUNDCLAMP (19 / 20 * (14 / 51)) = 67 := by
  have h0 : ¬ (19 / 20 * (14 / 51) : ℚ) < 0 := by norm_num
  have h1 : ¬ (19 / 20 * (14 / 51) : ℚ) > 1 := by norm_num
  rw [ROUNDCLAMP_mid _ h0 h1, Int.floor_eq_iff]
  constructor <;> norm_num

/-- The frame composited from the `1 x 1` image of grey level `70` when the
only pixel is outside. -/
theorem composite_grey70 :
    compositeFrame [14 / 51, 14 / 51, 14 / 51] [-1] 1 1 = some [66, 66, 66] := by
  have hE : edgeMap [-1] 1 1 = some [0] := by decide
  have hR : renderFrame [14 / 51, 14 / 51, 14 / 51] [0] 1 1 = some [66, 66, 66] := by
    simp [renderFrame, pixels, allSome, List.range_succ, pixelAt, pixelInputs, alphaRaw,
      readTemp, clampAlpha]
    norm_num [blend_zero, ROUNDCLAMP_darkened_grey70]
  simp only [compositeFrame, hE, hR]

/-! ## The failure path -/

theorem realloc_null (heap heap1 : Heap) (p : Option Nat) (n : Nat) (o : AllocOutcome)
    (h : realloc heap p n o = some (heap1, none)) : o = AllocOutcome.fail ∧ heap1 = heap := by
  cases p with
  | none => cases o <;> simp_all [realloc, malloc]
  | some a =>
    cases hb : blockAt heap a with
    | none => simp [realloc, hb] at h
    | some b => cases o <;> simp_all [realloc]

theorem malloc_null (heap heap1 : Heap) (n : Nat) (o : AllocOutcome)
    (h : malloc heap n o = (heap1, none)) : o = AllocOutcome.fail := by
  cases o <;> simp_all [malloc]

/-- A call that returns `0` has met a failed allocation, and it has not
written to the struct: `NumFrames`, `Plot` and `Delays` are the values of
before the call, whatever the allocator did to the blocks they name. -/
theorem PlotFun_failure (State Iter : Int) (Phi : List ℚ) (Width Height : Nat)
    (oPlot oDelays oTemp : AllocOutcome) (heap heap1 : Heap) (PlotParam PlotParam1 : plotparam)
    (h : PlotFun State Iter Phi Width Height oPlot oDelays oTemp heap PlotParam
      = some (0, heap1, PlotParam1)) :
    PlotParam1 = PlotParam ∧
    (oPlot = AllocOutcome.fail ∨ oDelays = AllocOutcome.fail ∨ oTemp = AllocOutcome.fail) := by
  unfold PlotFun at h
  simp only at h
  split_ifs at h with c1 c2
  · simp at h
  · split at h
    · cases h
    · rename_i heapA hA
      simp only [Option.some.injEq, Prod.mk.injEq, true_and] at h
      exact ⟨h.2.symm, Or.inl (realloc_null _ _ _ _ _ hA).1⟩
    · split at h
      · cases h
      · rename_i hB
        simp only [Option.some.injEq, Prod.mk.injEq, true_and] at h
        exact ⟨h.2.symm, Or.inr (Or.inl (realloc_null _ _ _ _ _ hB).1)⟩
      · split at h
        · rename_i hC
          simp only [Option.some.injEq, Prod.mk.injEq, true_and] at h
          exact ⟨h.2.symm, Or.inr (Or.inr (malloc_null _ _ _ _ hC))⟩
        · repeat' split at h
          all_goals simp at h

/-- The first call of a run on a black `1 x 1` image whose only pixel is
outside: one black frame with the delay `12`. -/
theorem first_capture :
    PlotFun 0 0 [-1] 1 1 AllocOutcome.moved AllocOutcome.moved AllocOutcome.moved
      [] (initialParam [0, 0, 0] 1)
      = some (1, [some [0, 0, 0], some [12], none],
          { Image := [0, 0, 0], Plot := some 0, Delays := some 1,
            IterPerFrame := 1, NumFrames := 1 }) := by
  have hE : edgeMap [-1] 1 1 = some [0] := by decide
  have hR : renderFrame [0, 0, 0] [0] 1 1 = some [0, 0, 0] := by
    simp [renderFrame, pixels, allSome, List.range_succ, pixelAt, pixelInputs, alphaRaw,
      readTemp, clampAlpha, blend, ROUNDCLAMP_zero]
    norm_num [ROUNDCLAMP_zero]
  unfold PlotFun
  simp only [initialParam, hE, hR]
  rfl

/-! ## The claims -/

/-- C9: for every rational `x`, `ROUNDCLAMP x` is an integer of `[0, 255]`
equal to `floor (255*x + 1/2)` clamped to `[0, 255]`; it is `0` for `x < 0`,
`255` for `x ≥ 1`, and for `0 ≤ x ≤ 1` it is within `1/2` of `255*x` and no
integer is nearer to `255*x`; and `ROUNDCLAMP` is non-decreasing. -/
theorem ROUNDCLAMP_spec (x : ℚ) :
    (0 ≤ ROUNDCLAMP x ∧ ROUNDCLAMP x ≤ 255) ∧
    ROUNDCLAMP x = max 0 (min 255 (Int.floor (255 * x + 1 / 2))) ∧
    (x < 0 → ROUNDCLAMP x = 0) ∧
    (1 ≤ x → ROUNDCLAMP x = 255) ∧
    (0 ≤ x → x ≤ 1 →
      |(ROUNDCLAMP x : ℚ) - 255 * x| ≤ 1 / 2 ∧
      ∀ n : Int, |(ROUNDCLAMP x : ℚ) - 255 * x| ≤ |(n : ℚ) - 255 * x|) ∧
    (∀ y : ℚ, x ≤ y → ROUNDCLAMP x ≤ ROUNDCLAMP y) := by
  refine ⟨?_, ROUNDCLAMP_eq_clamp x, ?_, ?_, ?_, fun y h => ROUNDCLAMP_mono x y h⟩
  · rw [ROUNDCLAMP_eq_clamp]
    omega
  · intro h
    unfold ROUNDCLAMP
    rw [if_pos h]
  · intro h
    have h1 := ROUNDCLAMP_mono 1 x h
    rw [ROUNDCLAMP_one] at h1
    have h2 : ROUNDCLAMP x ≤ 255 := by
      rw [ROUNDCLAMP_eq_clamp]
      omega
    omega
  · intro h0 h1
    rw [ROUNDCLAMP_mid x (not_lt.mpr h0) (not_lt.mpr h1)]
    have hl := Int.floor_le (255 * x + 1 / 2)
    have hu := Int.lt_floor_add_one (255 * x + 1 / 2)
    have hnear : |((Int.floor (255 * x + 1 / 2) : Int) : ℚ) - 255 * x| ≤ 1 / 2 := by
      rw [abs_le]
      constructor <;> linarith
    refine ⟨hnear, ?_⟩
    intro n
    by_cases hn : n = Int.floor (255 * x + 1 / 2)
    · rw [hn]
    · have hd : (1 : ℚ) ≤ |(n : ℚ) - (Int.floor (255 * x + 1 / 2) : Int)| := by
        have hz : (1 : Int) ≤ |n - Int.floor (255 * x + 1 / 2)| := by
          have : n - Int.floor (255 * x + 1 / 2) ≠ 0 := sub_ne_zero.mpr hn
          exact Int.one_le_abs this
        have hc : ((|n - Int.floor (255 * x + 1 / 2)| : Int) : ℚ) =
            |(n : ℚ) - (Int.floor (255 * x + 1 / 2) : Int)| := by
          push_cast
          rfl
        rw [← hc]
        exact_mod_cast hz
      have htri : |(n : ℚ) - (Int.floor (255 * x + 1 / 2) : Int)| ≤
          |(n : ℚ) - 255 * x| + |((Int.floor (255 * x + 1 / 2) : Int) : ℚ) - 255 * x| := by
        have := abs_sub_le (n : ℚ) (255 * x) ((Int.floor (255 * x + 1 / 2) : Int) : ℚ)
        rw [abs_sub_comm (255 * x) _] at this
        exact this
      linarith

/-- Witness for C9 at `x = 1/2`, where `255*x = 127.5` rounds to `128`. -/
theorem ROUNDCLAMP_spec_witness :
    (0 : ℚ) ≤ 1 / 2 ∧ (1 / 2 : ℚ) ≤ 1 ∧
    |(ROUNDCLAMP (1 / 2) : ℚ) - 255 * (1 / 2)| ≤ 1 / 2 ∧
    ROUNDCLAMP (1 / 2) ≤ ROUNDCLAMP 1 :=
  ⟨by norm_num, by norm_num,
    ((ROUNDCLAMP_spec (1 / 2)).2.2.2.2.1 (by norm_num) (by norm_num)).1,
    (ROUNDCLAMP_spec (1 / 2)).2.2.2.2.2 1 (by norm_num)⟩


/-- C6: on a boundary field of `Width*Height` samples, the edge indicator that
the first loop of `PlotFun` stores in `Temp` for the pixel `(x, y)`, computed
with tests of the in-image neighbours only, is `1` exactly when `Phi` at
`(x, y)` is `>= 0` and one of the four neighbours taken with coordinates
clamped to the image is `< 0`, and `0` otherwise. -/
theorem edge_indicator_clamped (Phi : List ℚ) (Width Height x y : Nat)
    (hPhi : Phi.length = Width * Height) (hx : x < Width) (hy : y < Height) :
    ∃ Temp, edgeMap Phi Width Height = some Temp ∧
      edgeAt Phi Width Height x y = Temp[x + Width * y]? ∧
      Temp[x + Width * y]? = some (if edgeClamped Phi Width Height x y then 1 else 0) := by
  refine ⟨_, edgeMap_eq Phi Width Height (le_of_eq hPhi.symm), ?_, ?_⟩
  · rw [pixels_map_getElem? Width Height x y _ hx hy]
    exact edgeAt_eq Phi Width Height x y (le_of_eq hPhi.symm) hx hy
  · rw [pixels_map_getElem? Width Height x y _ hx hy]

/-- C7, amended: for a source image of three planes and a boundary field
without a sign change (every sample `< 0`, or every sample `>= 0`), the edge
indicator is `0` at every pixel, `Alpha` is `0` at every pixel (before and
after the clamp), and byte `c` of pixel `i` of the captured frame is
`ROUNDCLAMP(d * Image[i + c*NumPixels])`, where `d = 15938355/16777216` is the
value of the single-precision literal `0.95f`: the source darkened by the
factor the program holds, with no blue highlight added. -/
theorem no_sign_change_darkened (Image Phi : List ℚ) (Width Height : Nat)
    (hI : Image.length = 3 * (Width * Height)) (hPhi : Phi.length = Width * Height)
    (hsign : (∀ v ∈ Phi, v < 0) ∨ (∀ v ∈ Phi, 0 ≤ v)) :
    ∃ Temp frame, edgeMap Phi Width Height = some Temp ∧
      compositeFrame Image Phi Width Height = some frame ∧
      frame.length = 3 * (Width * Height) ∧
      (∀ i, i < Width * Height → Temp[i]? = some 0) ∧
      (∀ x y, x < Width → y < Height →
        alphaRaw Temp Width Height x y = some 0 ∧ clampAlpha 0 = 0) ∧
      (∀ i c, i < Width * Height → c < 3 →
        frame[3 * i + c]? =
          some (ROUNDCLAMP (darkening * Image.getD (i + c * (Width * Height)) 0))) ∧
      darkening = 15938355 / 16777216 := by
  obtain ⟨Temp, frame, hE, hR, hC, hTl, hFl⟩ :=
    compositeFrame_defined Image Phi Width Height (le_of_eq hI.symm) (le_of_eq hPhi.symm)
  have hcell : ∀ a b, a < Width → b < Height →
      Temp[a + Width * b]? = some ((fun _ _ => (0 : Int)) a b) := by
    intro a b ha hb
    have h1 := edgeMap_eq Phi Width Height (le_of_eq hPhi.symm)
    rw [hE, Option.some.injEq] at h1
    rw [h1, pixels_map_getElem? Width Height a b _ ha hb]
    have := no_edge_of_no_sign_change Phi Width Height a b (le_of_eq hPhi.symm) ha hb hsign
    simp [this]
  refine ⟨Temp, frame, hE, hC, hFl, ?_, ?_, ?_, rfl⟩
  · intro i hi
    obtain ⟨hx, hy, hxy⟩ := index_split Width Height i hi
    have := hcell _ _ hx hy
    rw [hxy] at this
    exact this
  · intro x y hx hy
    refine ⟨?_, by simp [clampAlpha]⟩
    rw [alphaRaw_eq Temp Width Height x y _ hcell hx hy]
    simp
  · intro i c hi hc
    obtain ⟨hx, hy, hxy⟩ := index_split Width Height i hi
    obtain ⟨t, ht, hbytes⟩ := (renderFrame_get Image Temp Width Height frame hR).2 _ _ hx hy
    rw [pixelAt_eq Image Temp Width Height _ _ _ (le_of_eq hI.symm) hcell hx hy,
      Option.some.injEq] at ht
    have hb := hbytes c hc
    rw [hxy] at hb ht
    rw [hb, ← ht]
    have ha : clampAlpha ((((4 * 0 + 0 + 0 + 0 + 0 : Int)) : ℚ) / 4) = 0 := by
      simp [clampAlpha]
    rw [ha, blend_zero]
    interval_cases c <;> simp


/-- C10: for a source image of three planes and any boundary field, a pixel
whose edge indicator is `1` has `Alpha >= 1` before the clamp and `Alpha = 1`
after it, and its three bytes in the captured frame are `(0, 0, 255)`,
whatever the source colour. -/
theorem edge_pixel_pure_blue (Image Phi : List ℚ) (Width Height x y : Nat)
    (Temp : List Int)
    (hI : Image.length = 3 * (Width * Height)) (hPhi : Phi.length = Width * Height)
    (hx : x < Width) (hy : y < Height)
    (hE : edgeMap Phi Width Height = some Temp)
    (hedge : Temp[x + Width * y]? = some 1) :
    ∃ Alpha frame, alphaRaw Temp Width Height x y = some Alpha ∧
      1 ≤ Alpha ∧ clampAlpha Alpha = 1 ∧
      compositeFrame Image Phi Width Height = some frame ∧
      frame[3 * (x + Width * y)]? = some 0 ∧
      frame[3 * (x + Width * y) + 1]? = some 0 ∧
      frame[3 * (x + Width * y) + 2]? = some 255 := by
  obtain ⟨Temp1, frame, hE1, hR, hC, -, -⟩ :=
    compositeFrame_defined Image Phi Width Height (le_of_eq hI.symm) (le_of_eq hPhi.symm)
  rw [hE, Option.some.injEq] at hE1
  subst hE1
  have hcell := edge_cells Phi Width Height Temp (le_of_eq hPhi.symm) hE
  have hnn : ∀ a b, (0 : Int) ≤ (if edgeClamped Phi Width Height a b then (1 : Int) else 0) := by
    intro a b
    split_ifs <;> decide
  have hxy : (if edgeClamped Phi Width Height x y then (1 : Int) else 0) = 1 := by
    have := hcell x y hx hy
    rw [hedge] at this
    exact (Option.some.inj this).symm
  have hge : (1 : ℚ) ≤ (((4 * (if edgeClamped Phi Width Height x y then (1 : Int) else 0)
      + (if edgeClamped Phi Width Height (if x + 1 = Width then x else x + 1) y
          then (1 : Int) else 0)
      + (if edgeClamped Phi Width Height (x - 1) y then (1 : Int) else 0)
      + (if edgeClamped Phi Width Height x (if y + 1 = Height then y else y + 1)
          then (1 : Int) else 0)
      + (if edgeClamped Phi Width Height x (y - 1) then (1 : Int) else 0) : Int) : ℚ) / 4) := by
    have h1 := hnn (if x + 1 = Width then x else x + 1) y
    have h2 := hnn (x - 1) y
    have h3 := hnn x (if y + 1 = Height then y else y + 1)
    have h4 := hnn x (y - 1)
    rw [hxy, le_div_iff₀ (by norm_num : (0 : ℚ) < 4)]
    have : (4 : Int) ≤ 4 * 1
        + (if edgeClamped Phi Width Height (if x + 1 = Width then x else x + 1) y
            then (1 : Int) else 0)
        + (if edgeClamped Phi Width Height (x - 1) y then (1 : Int) else 0)
        + (if edgeClamped Phi Width Height x (if y + 1 = Height then y else y + 1)
            then (1 : Int) else 0)
        + (if edgeClamped Phi Width Height x (y - 1) then (1 : Int) else 0) := by omega
    have hq := (Int.cast_le (R := ℚ)).mpr this
    simpa using hq
  have hclamp : ∀ a : ℚ, 1 ≤ a → clampAlpha a = 1 := by
    intro a ha
    unfold clampAlpha
    split_ifs with h
    · rfl
    · exact le_antisymm (not_lt.mp h) ha
  obtain ⟨t, ht, hbytes⟩ := (renderFrame_get Image Temp Width Height frame hR).2 x y hx hy
  rw [pixelAt_eq Image Temp Width Height x y _ (le_of_eq hI.symm) hcell hx hy,
    Option.some.injEq, hclamp _ hge, blend_one] at ht
  refine ⟨_, frame, alphaRaw_eq Temp Width Height x y _ hcell hx hy, hge, hclamp _ hge, hC,
    ?_, ?_, ?_⟩
  · have := hbytes 0 (by decide)
    rw [Nat.add_zero] at this
    rw [this, ← ht]
    rfl
  · rw [hbytes 1 (by decide), ← ht]
    rfl
  · rw [hbytes 2 (by decide), ← ht]
    rfl


/-- Witness for C10: the image of two black pixels with the field `[1, -1]`;
the pixel `(0, 0)` is on the edge. -/
theorem edge_pixel_pure_blue_witness :
    ∃ Alpha frame, alphaRaw [1, 0] 2 1 0 0 = some Alpha ∧
      1 ≤ Alpha ∧ clampAlpha Alpha = 1 ∧
      compositeFrame [0, 0, 0, 0, 0, 0] [1, -1] 2 1 = some frame ∧
      frame[3 * (0 + 2 * 0)]? = some 0 ∧
      frame[3 * (0 + 2 * 0) + 1]? = some 0 ∧
      frame[3 * (0 + 2 * 0) + 2]? = some 255 :=
  edge_pixel_pure_blue [0, 0, 0, 0, 0, 0] [1, -1] 2 1 0 0 [1, 0]
    (by decide) (by decide) (by decide) (by decide) (by decide) (by decide)

/-- Witness for C6: the field `[1, -1]` of width `2` and height `1` at the
pixel `(0, 0)`. -/
theorem edge_indicator_clamped_witness :
    ∃ Temp, edgeMap [1, -1] 2 1 = some Temp ∧
      edgeAt [1, -1] 2 1 0 0 = Temp[0 + 2 * 0]? ∧
      Temp[0 + 2 * 0]? = some (if edgeClamped [1, -1] 2 1 0 0 then 1 else 0) :=
  edge_indicator_clamped [1, -1] 2 1 0 0 (by decide) (by decide) (by decide)

/-- C7, as stated, fails: on the `1 x 1` image whose three samples are
`70/255` (the grey level `70`) with the boundary field `[-1]`, which has no
sign change, the three bytes of the captured frame are `66`, whereas
`ROUNDCLAMP(0.95 * Image[i])` with the exact factor `0.95` is `67`: the
product `255 * 0.95 * 70/255` is `66.5` exactly, and with the factor `0.95f`
the program holds it is just below. -/
theorem darkened_byte_below_exact_factor :
    (∀ v ∈ [(-1 : ℚ)], v < 0) ∧
    List.length [(14 / 51 : ℚ), 14 / 51, 14 / 51] = 3 * (1 * 1) ∧
    compositeFrame [14 / 51, 14 / 51, 14 / 51] [-1] 1 1 = some [66, 66, 66] ∧
    ROUNDCLAMP (19 / 20 * List.getD [(14 / 51 : ℚ), 14 / 51, 14 / 51] 0 0) = 67 ∧
    [(66 : Int), 66, 66][3 * 0 + 0]? ≠
      some (ROUNDCLAMP (19 / 20 * List.getD [(14 / 51 : ℚ), 14 / 51, 14 / 51] 0 0)) := by
  have h67 : ROUNDCLAMP (19 / 20 * List.getD [(14 / 51 : ℚ), 14 / 51, 14 / 51] 0 0) = 67 := by
    simp only [List.getD_cons_zero]
    exact ROUNDCLAMP_exact_grey70
  refine ⟨by decide, rfl, composite_grey70, h67, ?_⟩
  rw [h67]
  decide

/-- Witness for the amended C7: a `2 x 1` image and the field `[-1, -1]`. -/
theorem no_sign_change_darkened_witness :
    ∃ Temp frame, edgeMap [-1, -1] 2 1 = some Temp ∧
      compositeFrame [1, 0, 1, 0, 1, 0] [-1, -1] 2 1 = some frame ∧
      frame.length = 3 * (2 * 1) ∧
      (∀ i, i < 2 * 1 → Temp[i]? = some 0) ∧
      (∀ x y, x < 2 → y < 1 → alphaRaw Temp 2 1 x y = some 0 ∧ clampAlpha 0 = 0) ∧
      (∀ i c, i < 2 * 1 → c < 3 →
        frame[3 * i + c]? =
          some (ROUNDCLAMP (darkening * List.getD [1, 0, 1, 0, 1, 0] (i + c * (2 * 1)) 0))) ∧
      darkening = 15938355 / 16777216 :=
  no_sign_change_darkened [1, 0, 1, 0, 1, 0] [-1, -1] 2 1 (by decide) (by decide)
    (Or.inl (by decide))

/-- C8: on an image of width and height at least `3`, for a boundary field
whose only sample `>= 0` is the one of the pixel `p = (px, py)`: the edge
indicator is `1` at `p` and `0` at every other pixel, `Alpha` at `p` is `1`
after the clamp (also when `p` is on the border of the image), and `Alpha` at
each 4-connected neighbour of `p` in the image is `1/4`, before and after the
clamp. -/
theorem isolated_inside_pixel (Phi : List ℚ) (Width Height px py : Nat)
    (hW : 3 ≤ Width) (_hH : 3 ≤ Height) (hPhi : Phi.length = Width * Height)
    (hpx : px < Width) (hpy : py < Height)
    (hin : 0 ≤ Phi.getD (px + Width * py) 0)
    (hout : ∀ j, j < Width * Height → j ≠ px + Width * py → Phi.getD j 0 < 0) :
    ∃ Temp, edgeMap Phi Width Height = some Temp ∧
      (∀ x y, x < Width → y < Height →
        Temp[x + Width * y]? = some (if x = px ∧ y = py then 1 else 0)) ∧
      (alphaRaw Temp Width Height px py).map clampAlpha = some 1 ∧
      (∀ qx qy, qx < Width → qy < Height →
        ((qx + 1 = px ∧ qy = py) ∨ (qx = px + 1 ∧ qy = py) ∨
          (qx = px ∧ qy + 1 = py) ∨ (qx = px ∧ qy = py + 1)) →
        alphaRaw Temp Width Height qx qy = some (1 / 4) ∧ clampAlpha (1 / 4) = 1 / 4) := by
  have hE := edgeMap_eq Phi Width Height (le_of_eq hPhi.symm)
  have hother : ∀ x y, x < Width → y < Height → ¬ (x = px ∧ y = py) →
      Phi.getD (x + Width * y) 0 < 0 := by
    intro x y hx hy hne
    apply hout _ (index_lt Width Height x y hx hy)
    intro h
    exact hne (index_inj Width x y px py hx hpx h)
  have hedge : ∀ x y, x < Width → y < Height →
      (edgeClamped Phi Width Height x y ↔ (x = px ∧ y = py)) := by
    intro x y hx hy
    constructor
    · intro h
      by_contra hne
      exact absurd h.1 (not_le.mpr (hother x y hx hy hne))
    · rintro ⟨rfl, rfl⟩
      refine ⟨hin, ?_⟩
      by_cases h0 : x = 0
      · right
        left
        have e : min (x + 1) (Width - 1) = 1 := by
          subst h0
          rw [Nat.min_eq_left (by omega)]
        rw [e]
        exact hother 1 y (by omega) hy (by omega)
      · left
        exact hother (x - 1) y (by omega) hy (by omega)
  have hcell : ∀ a b, a < Width → b < Height →
      ((pixels Width Height).map
        (fun p => if edgeClamped Phi Width Height p.1 p.2 then (1 : Int) else 0))[a + Width * b]?
        = some ((fun a b => if a = px ∧ b = py then (1 : Int) else 0) a b) := by
    intro a b ha hb
    rw [pixels_map_getElem? Width Height a b _ ha hb]
    simp only [hedge a b ha hb]
  refine ⟨_, hE, hcell, ?_, ?_⟩
  · rw [alphaRaw_eq _ Width Height px py _ hcell hpx hpy]
    simp only [Option.map_some', Option.some.injEq, and_self, if_true]
    unfold clampAlpha
    by_cases h1 : px + 1 = Width <;> by_cases h2 : px - 1 = px <;>
      by_cases h3 : py + 1 = Height <;> by_cases h4 : py - 1 = py <;>
      simp [h1, h2, h3, h4] <;> norm_num
  · intro qx qy hqx hqy hadj
    refine ⟨?_, by simp [clampAlpha]; norm_num⟩
    rw [alphaRaw_eq _ Width Height qx qy _ hcell hqx hqy]
    rcases hadj with ⟨h1, h2⟩ | ⟨h1, h2⟩ | ⟨h1, h2⟩ | ⟨h1, h2⟩
    · subst h1 h2
      have a1 : ¬ qx = qx + 1 := by omega
      have a2 : ¬ qx - 1 = qx + 1 := by omega
      have a3 : ¬ qx + 1 = Width := by omega
      simp [a1, a2, a3]
    · subst h1 h2
      have a1 : ¬ px + 1 = px := by omega
      have a2 : ¬ px + 1 + 1 = px := by omega
      simp [a1, a2]
      split_ifs <;> simp_all
    · subst h1 h2
      have a1 : ¬ qy = qy + 1 := by omega
      have a2 : ¬ qy - 1 = qy + 1 := by omega
      have a3 : ¬ qy + 1 = Height := by omega
      simp [a1, a2, a3]
    · subst h1 h2
      have a1 : ¬ py + 1 = py := by omega
      have a2 : ¬ py + 1 + 1 = py := by omega
      simp [a1, a2]
      split_ifs <;> simp_all


/-- Witness for C8: the `3 x 3` field whose centre alone is inside. -/
theorem isolated_inside_pixel_witness :
    ∃ Temp, edgeMap [-1, -1, -1, -1, 1, -1, -1, -1, -1] 3 3 = some Temp ∧
      (∀ x y, x < 3 → y < 3 →
        Temp[x + 3 * y]? = some (if x = 1 ∧ y = 1 then 1 else 0)) ∧
      (alphaRaw Temp 3 3 1 1).map clampAlpha = some 1 ∧
      (∀ qx qy, qx < 3 → qy < 3 →
        ((qx + 1 = 1 ∧ qy = 1) ∨ (qx = 1 + 1 ∧ qy = 1) ∨
          (qx = 1 ∧ qy + 1 = 1) ∨ (qx = 1 ∧ qy = 1 + 1)) →
        alphaRaw Temp 3 3 qx qy = some (1 / 4) ∧ clampAlpha (1 / 4) = 1 / 4) :=
  isolated_inside_pixel [-1, -1, -1, -1, 1, -1, -1, -1, -1] 3 3 1 1
    (by decide) (by decide) (by decide) (by decide) (by decide) (by decide) (by decide)

/-- C5, as stated, fails: for the single-channel image `[1/2]` of `1 x 1`
sample with the boundary field `[-1]`, the green and blue inputs of the pixel
`0` are read at the indices `1` and `2`, outside the image, so that the inputs
are not three copies of `Image[0]` and the compositing is not defined. -/
theorem single_plane_inputs_undefined :
    List.length [(1 / 2 : ℚ)] = 1 * 1 ∧ List.length [(-1 : ℚ)] = 1 * 1 ∧
    pixelInputs [1 / 2] (1 * 1) 0 ≠ some (1 / 2, 1 / 2, 1 / 2) ∧
    pixelInputs [1 / 2] (1 * 1) 0 = none ∧
    compositeFrame [1 / 2] [-1] 1 1 = none := by
  refine ⟨rfl, rfl, ?_, rfl, rfl⟩
  intro h
  have h2 : pixelInputs [1 / 2] (1 * 1) 0 = none := rfl
  rw [h2] at h
  cases h

/-- C5, amended: for a source image of three planes of `Width*Height` samples
and a boundary field of `Width*Height` samples, the compositing is defined for
every pixel, and the red, green and blue inputs of the pixel `i` are
`Image[i]`, `Image[i + NumPixels]` and `Image[i + 2*NumPixels]`, whatever
`NumChannels` is; where the three planes hold the same sample at `i` and
`Alpha` is `0`, the three bytes of the pixel are equal. -/
theorem three_plane_inputs (Image Phi : List ℚ) (Width Height : Nat)
    (hI : Image.length = 3 * (Width * Height)) (hPhi : Phi.length = Width * Height) :
    ∃ Temp frame, edgeMap Phi Width Height = some Temp ∧
      compositeFrame Image Phi Width Height = some frame ∧
      frame.length = 3 * (Width * Height) ∧
      (∀ i, i < Width * Height →
        pixelInputs Image (Width * Height) i =
          some (Image.getD i 0, Image.getD (i + Width * Height) 0,
            Image.getD (i + 2 * (Width * Height)) 0)) ∧
      (∀ x y, x < Width → y < Height →
        Image.getD (x + Width * y + Width * Height) 0 = Image.getD (x + Width * y) 0 →
        Image.getD (x + Width * y + 2 * (Width * Height)) 0 = Image.getD (x + Width * y) 0 →
        alphaRaw Temp Width Height x y = some 0 →
        frame[3 * (x + Width * y) + 1]? = frame[3 * (x + Width * y)]? ∧
        frame[3 * (x + Width * y) + 2]? = frame[3 * (x + Width * y)]?) := by
  obtain ⟨Temp, frame, hE, hR, hC, hTl, hFl⟩ :=
    compositeFrame_defined Image Phi Width Height (le_of_eq hI.symm) (le_of_eq hPhi.symm)
  refine ⟨Temp, frame, hE, hC, hFl, ?_, ?_⟩
  · intro i hi
    exact pixelInputs_eq Image (Width * Height) i (le_of_eq hI.symm) hi
  · intro x y hx hy hG hB hA
    obtain ⟨t, ht, hbytes⟩ := (renderFrame_get Image Temp Width Height frame hR).2 x y hx hy
    have hin := pixelInputs_eq Image (Width * Height) (x + Width * y) (le_of_eq hI.symm)
      (index_lt Width Height x y hx hy)
    simp only [pixelAt, hin, hA, Option.some.injEq] at ht
    have h0 := hbytes 0 (by decide)
    rw [Nat.add_zero] at h0
    rw [hbytes 1 (by decide), hbytes 2 (by decide), h0, ← ht, hG, hB]
    have hz : clampAlpha 0 = 0 := by simp [clampAlpha]
    rw [hz, blend_zero]
    exact ⟨rfl, rfl⟩

/-- Witness for the amended C5: a `2 x 1` image of three equal planes. -/
theorem three_plane_inputs_witness :
    ∃ Temp frame, edgeMap [-1, -1] 2 1 = some Temp ∧
      compositeFrame [1, 0, 1, 0, 1, 0] [-1, -1] 2 1 = some frame ∧
      frame.length = 3 * (2 * 1) ∧
      (∀ i, i < 2 * 1 →
        pixelInputs [1, 0, 1, 0, 1, 0] (2 * 1) i =
          some (List.getD [1, 0, 1, 0, 1, 0] i 0, List.getD [1, 0, 1, 0, 1, 0] (i + 2 * 1) 0,
            List.getD [1, 0, 1, 0, 1, 0] (i + 2 * (2 * 1)) 0)) ∧
      (∀ x y, x < 2 → y < 1 →
        List.getD [1, 0, 1, 0, 1, 0] (x + 2 * y + 2 * 1) 0
          = List.getD [(1 : ℚ), 0, 1, 0, 1, 0] (x + 2 * y) 0 →
        List.getD [1, 0, 1, 0, 1, 0] (x + 2 * y + 2 * (2 * 1)) 0
          = List.getD [(1 : ℚ), 0, 1, 0, 1, 0] (x + 2 * y) 0 →
        alphaRaw Temp 2 1 x y = some 0 →
        frame[3 * (x + 2 * y) + 1]? = frame[3 * (x + 2 * y)]? ∧
        frame[3 * (x + 2 * y) + 2]? = frame[3 * (x + 2 * y)]?) :=
  three_plane_inputs [1, 0, 1, 0, 1, 0] [-1, -1] 2 1 (by decide) (by decide)


/-- C1: a call of `PlotFun` in state RUNNING (`State = 0`) with
`IterPerFrame > 0` and `Iter >= 0`. If `Iter mod IterPerFrame` is not `0` the
call returns `1` and leaves the heap and the struct, hence the Frame Set
(frames, delays, `NumFrames`), exactly as they were. If it is `0` and the
three allocations succeed, then, the image holding three planes, the boundary
field one, and the struct referring to a Frame Set `fs`, the call returns `1`
and the Frame Set is `fs` with exactly one frame (the composited one) and one
delay (`12`) appended, all earlier frames and delays unchanged. -/
theorem PlotFun_running (Iter : Int) (Phi : List ℚ) (Width Height : Nat)
    (oPlot oDelays oTemp : AllocOutcome) (heap : Heap) (PlotParam : plotparam)
    (hk : 0 < PlotParam.IterPerFrame) (hIter : 0 ≤ Iter) :
    (Iter % PlotParam.IterPerFrame ≠ 0 →
      PlotFun 0 Iter Phi Width Height oPlot oDelays oTemp heap PlotParam
        = some (1, heap, PlotParam)) ∧
    (Iter % PlotParam.IterPerFrame = 0 →
      oPlot ≠ AllocOutcome.fail → oDelays ≠ AllocOutcome.fail →
      oTemp ≠ AllocOutcome.fail →
      PlotParam.Image.length = 3 * (Width * Height) → Phi.length = Width * Height →
      separate PlotParam →
      ∀ fs, frameSet heap PlotParam (Width * Height) = some fs →
      ∃ heap1 PlotParam1 frame,
        PlotFun 0 Iter Phi Width Height oPlot oDelays oTemp heap PlotParam
          = some (1, heap1, PlotParam1) ∧
        compositeFrame PlotParam.Image Phi Width Height = some frame ∧
        frame.length = 3 * (Width * Height) ∧
        PlotParam1.NumFrames = PlotParam.NumFrames + 1 ∧
        frameSet heap1 PlotParam1 (Width * Height)
          = some ⟨fs.frames ++ [frame], fs.delays ++ [12]⟩) := by
  have hmod : Int.tmod Iter PlotParam.IterPerFrame = Iter % PlotParam.IterPerFrame :=
    Int.tmod_eq_emod hIter (le_of_lt hk)
  have hnn : 0 ≤ Iter % PlotParam.IterPerFrame := Int.emod_nonneg Iter (ne_of_gt hk)
  constructor
  · intro hne
    apply PlotFun_skip Iter Phi Width Height oPlot oDelays oTemp heap PlotParam (ne_of_gt hk)
    rw [hmod]
    omega
  · intro hz h1 h2 h3 hI hPhi hsep fs hfs
    obtain ⟨heap1, P1, frame, hstep, hC, hFl, hNF, -, -, hfs1, -⟩ :=
      PlotFun_capture 0 Iter Phi Width Height oPlot oDelays oTemp heap PlotParam fs
        (fun h => absurd h.2 (ne_of_gt hk))
        (fun h => by rw [hmod, hz] at h; exact absurd h.2 (lt_irrefl _))
        (le_of_eq hI.symm) (le_of_eq hPhi.symm) hfs hsep h1 h2 h3
    exact ⟨heap1, P1, frame, hstep, hC, hFl, hNF, hfs1⟩

/-- Witness for C1: the first two calls of a run on a black `1 x 1` image with
`IterPerFrame = 2`: the call with `Iter = 0` captures a frame, the call with
`Iter = 1` changes nothing. -/
theorem PlotFun_running_witness :
    (∃ heap1 PlotParam1 frame,
      PlotFun 0 0 [-1] 1 1 AllocOutcome.moved AllocOutcome.moved AllocOutcome.moved
        [] (initialParam [0, 0, 0] 2) = some (1, heap1, PlotParam1) ∧
      compositeFrame (initialParam [0, 0, 0] 2).Image [-1] 1 1 = some frame ∧
      frame.length = 3 * (1 * 1) ∧
      PlotParam1.NumFrames = (initialParam [0, 0, 0] 2).NumFrames + 1 ∧
      frameSet heap1 PlotParam1 (1 * 1)
        = some ⟨([] : List (List Int)) ++ [frame], ([] : List Int) ++ [12]⟩) ∧
    PlotFun 0 1 [-1] 1 1 AllocOutcome.moved AllocOutcome.moved AllocOutcome.moved
      [] (initialParam [0, 0, 0] 2) = some (1, [], initialParam [0, 0, 0] 2) :=
  ⟨(PlotFun_running 0 [-1] 1 1 AllocOutcome.moved AllocOutcome.moved AllocOutcome.moved
      [] (initialParam [0, 0, 0] 2) (by decide) (by decide)).2
      (by decide) (by decide) (by decide) (by decide) (by decide) (by decide)
      (separate_initial [0, 0, 0] 2) ⟨[], []⟩ (frameSet_initial [] [0, 0, 0] 2 (1 * 1)),
    (PlotFun_running 1 [-1] 1 1 AllocOutcome.moved AllocOutcome.moved AllocOutcome.moved
      [] (initialParam [0, 0, 0] 2) (by decide) (by decide)).1 (by decide)⟩

/-- C2: a call of `PlotFun` in state CONVERGED (`1`) or
MAX_ITERATIONS_REACHED (`2`) whose allocations succeed returns `1` and appends
exactly one frame, whatever `Iter` and `IterPerFrame` are; the delay stored
with it is `120`, strictly more than the `12` stored in state RUNNING; and
three successful calls RUNNING, RUNNING, CONVERGED with `IterPerFrame = 1`
from the empty Frame Set leave three frames with the delays `12, 12, 120`. -/
theorem PlotFun_terminal (State Iter : Int) (Phi : List ℚ) (Width Height : Nat)
    (oPlot oDelays oTemp : AllocOutcome) (heap : Heap) (PlotParam : plotparam)
    (fs : FrameSet)
    (hState : State = 1 ∨ State = 2)
    (hI : PlotParam.Image.length = 3 * (Width * Height))
    (hPhi : Phi.length = Width * Height)
    (hfs : frameSet heap PlotParam (Width * Height) = some fs)
    (hsep : separate PlotParam)
    (h1 : oPlot ≠ AllocOutcome.fail) (h2 : oDelays ≠ AllocOutcome.fail)
    (h3 : oTemp ≠ AllocOutcome.fail) :
    (∃ heap1 PlotParam1 frame,
      PlotFun State Iter Phi Width Height oPlot oDelays oTemp heap PlotParam
        = some (1, heap1, PlotParam1) ∧
      compositeFrame PlotParam.Image Phi Width Height = some frame ∧
      PlotParam1.NumFrames = PlotParam.NumFrames + 1 ∧
      frameSet heap1 PlotParam1 (Width * Height)
        = some ⟨fs.frames ++ [frame], fs.delays ++ [120]⟩) ∧
    (delayOf State = 120 ∧ delayOf 0 = 12 ∧ delayOf 0 < delayOf State) ∧
    (∀ (c0 c1 c2 : Call) (heap0 : Heap),
      c0.State = 0 → c1.State = 0 → c2.State = 1 →
      (∀ c ∈ [c0, c1, c2], c.Phi.length = Width * Height ∧ c.oPlot ≠ AllocOutcome.fail ∧
        c.oDelays ≠ AllocOutcome.fail ∧ c.oTemp ≠ AllocOutcome.fail) →
      ∃ heap3 PlotParam3 fs3,
        runCalls Width Height [c0, c1, c2] heap0 (initialParam PlotParam.Image 1)
          = some (1, heap3, PlotParam3) ∧
        PlotParam3.NumFrames = 3 ∧
        frameSet heap3 PlotParam3 (Width * Height) = some fs3 ∧
        fs3.frames.length = 3 ∧ fs3.delays = [12, 12, 120]) := by
  have hS : State ≠ 0 := by
    rcases hState with h | h <;> rw [h] <;> decide
  have hd : delayOf State = 120 := by simp [delayOf, hS]
  refine ⟨?_, ⟨hd, rfl, by rw [hd]; decide⟩, ?_⟩
  · obtain ⟨heap1, P1, frame, hstep, hC, -, hNF, -, -, hfs1, -⟩ :=
      PlotFun_capture State Iter Phi Width Height oPlot oDelays oTemp heap PlotParam fs
        (fun h => hS h.1) (fun h => hS h.1)
        (le_of_eq hI.symm) (le_of_eq hPhi.symm) hfs hsep h1 h2 h3
    rw [hd] at hfs1
    exact ⟨heap1, P1, frame, hstep, hC, hNF, hfs1⟩
  · intro c0 c1 c2 heap0 hs0 hs1 hs2 hall
    obtain ⟨heap3, P3, fs3, hrun, hfs3, -, -, -, hNF, hfl, hdl⟩ :=
      runCalls_ok Width Height [c0, c1, c2]
        heap0 (initialParam PlotParam.Image 1) ⟨[], []⟩ (le_of_eq hI.symm)
        (frameSet_initial heap0 PlotParam.Image 1 (Width * Height))
        (separate_initial PlotParam.Image 1)
        (by
          intro c hc
          obtain ⟨hp, ha, hb, hc3⟩ := hall c hc
          exact ⟨le_of_eq hp.symm, ha, hb, hc3, fun h => by simp [initialParam] at h⟩)
    have hfilter : List.filter (capturing (initialParam PlotParam.Image 1).IterPerFrame)
        [c0, c1, c2] = [c0, c1, c2] := by
      simp [capturing, initialParam, Int.tmod_one]
    rw [hfilter] at hNF hfl hdl
    exact ⟨heap3, P3, fs3, hrun, by simpa [initialParam] using hNF, hfs3,
      by simpa using hfl, by simpa [delayOf, hs0, hs1, hs2] using hdl⟩

/-- Witness for C2: the terminal call of a run on a black `1 x 1` image. -/
theorem PlotFun_terminal_witness :
    ∃ heap1 PlotParam1 frame,
      PlotFun 1 7 [-1] 1 1 AllocOutcome.moved AllocOutcome.inPlace AllocOutcome.moved
        [] (initialParam [0, 0, 0] 0) = some (1, heap1, PlotParam1) ∧
      compositeFrame (initialParam [0, 0, 0] 0).Image [-1] 1 1 = some frame ∧
      PlotParam1.NumFrames = (initialParam [0, 0, 0] 0).NumFrames + 1 ∧
      frameSet heap1 PlotParam1 (1 * 1)
        = some ⟨([] : List (List Int)) ++ [frame], ([] : List Int) ++ [120]⟩ :=
  (PlotFun_terminal 1 7 [-1] 1 1 AllocOutcome.moved AllocOutcome.inPlace AllocOutcome.moved
    [] (initialParam [0, 0, 0] 0) ⟨[], []⟩ (Or.inl rfl) (by decide) (by decide)
    (frameSet_initial [] [0, 0, 0] 0 (1 * 1)) (separate_initial [0, 0, 0] 0)
    (by decide) (by decide) (by decide)).1


/-- C3: from the empty Frame Set with `IterPerFrame = k > 0`, after `N >= 1`
successful calls of `PlotFun` in state RUNNING with the iteration indices
`0, 1, ..., N-1`, the number of captured frames is `(N-1)/k + 1` and the
number of delays is the same; a following call in state CONVERGED or
MAX_ITERATIONS_REACHED whose allocations succeed adds exactly one frame and
one delay, for every iteration index, in particular one that is not a
multiple of `k`. -/
theorem frames_after_run (Image : List ℚ) (Width Height k N : Nat)
    (Phis : Nat → List ℚ) (oPlot oDelays oTemp : Nat → AllocOutcome) (heap : Heap)
    (hk : 0 < k) (hN : 1 ≤ N)
    (hI : Image.length = 3 * (Width * Height))
    (hPhis : ∀ n, (Phis n).length = Width * Height)
    (ho : ∀ n, oPlot n ≠ AllocOutcome.fail ∧ oDelays n ≠ AllocOutcome.fail ∧
      oTemp n ≠ AllocOutcome.fail) :
    ∃ heap1 PlotParam1 fs1,
      runCalls Width Height
        ((List.range N).map
          (fun (n : Nat) => (⟨0, (n : Int), Phis n, oPlot n, oDelays n, oTemp n⟩ : Call)))
        heap (initialParam Image (k : Int)) = some (1, heap1, PlotParam1) ∧
      PlotParam1.NumFrames = (N - 1) / k + 1 ∧
      frameSet heap1 PlotParam1 (Width * Height) = some fs1 ∧
      fs1.frames.length = (N - 1) / k + 1 ∧
      fs1.delays.length = (N - 1) / k + 1 ∧
      ∀ (State Iter : Int) (Phi : List ℚ) (a b c : AllocOutcome),
        (State = 1 ∨ State = 2) → Phi.length = Width * Height →
        a ≠ AllocOutcome.fail → b ≠ AllocOutcome.fail → c ≠ AllocOutcome.fail →
        ∃ heap2 PlotParam2 frame,
          PlotFun State Iter Phi Width Height a b c heap1 PlotParam1
            = some (1, heap2, PlotParam2) ∧
          PlotParam2.NumFrames = (N - 1) / k + 1 + 1 ∧
          frameSet heap2 PlotParam2 (Width * Height)
            = some ⟨fs1.frames ++ [frame], fs1.delays ++ [120]⟩ := by
  obtain ⟨M, rfl⟩ : ∃ M, N = M + 1 := ⟨N - 1, by omega⟩
  have hkz : ¬ ((k : Int) = 0) := by omega
  obtain ⟨heap1, P1, fs1, hrun, hfs1, hsep1, hIm, hIPF, hNF, hfl, hdl⟩ :=
    runCalls_ok Width Height
      ((List.range (M + 1)).map
        (fun (n : Nat) => (⟨0, (n : Int), Phis n, oPlot n, oDelays n, oTemp n⟩ : Call)))
      heap (initialParam Image (k : Int)) ⟨[], []⟩ (le_of_eq hI.symm)
      (frameSet_initial heap Image k (Width * Height)) (separate_initial Image k)
      (by
        intro c hc
        obtain ⟨n, -, rfl⟩ := List.mem_map.mp hc
        exact ⟨le_of_eq (hPhis n).symm, (ho n).1, (ho n).2.1, (ho n).2.2,
          fun h => hkz h.2⟩)
  have hcount : (List.filter (capturing (initialParam Image (k : Int)).IterPerFrame)
      ((List.range (M + 1)).map
        (fun (n : Nat) => (⟨0, (n : Int), Phis n, oPlot n, oDelays n, oTemp n⟩ : Call)))).length
      = M / k + 1 := by
    rw [List.filter_map, List.length_map, ← count_multiples k M]
    congr 1
    apply List.filter_congr
    intro n _
    have hmod : Int.tmod (n : Int) (k : Int) = ((n % k : Nat) : Int) := by
      rw [Int.tmod_eq_emod (by omega) (by omega)]
      norm_cast
    by_cases hz : n % k = 0
    · have h0 : Int.tmod (n : Int) (k : Int) = 0 := by
        rw [hmod, hz]
        rfl
      simp only [capturing, initialParam, Function.comp, h0, hz]
      decide
    · have hp : Int.tmod (n : Int) (k : Int) > 0 := by
        rw [hmod]
        exact_mod_cast Nat.pos_of_ne_zero hz
      simp only [capturing, initialParam, Function.comp, hp, hz]
      decide
  rw [hcount] at hNF hfl
  have hdlen : fs1.delays.length = M / k + 1 := by
    rw [hdl, List.length_append, List.length_map, hcount]
    simp
  refine ⟨heap1, P1, fs1, hrun, by simpa [initialParam] using hNF, hfs1,
    by simpa using hfl, by simpa using hdlen, ?_⟩
  intro State Iter Phi a b c hState hPhi ha hb hc
  have hS : State ≠ 0 := by
    rcases hState with h | h <;> rw [h] <;> decide
  have hd : delayOf State = 120 := by simp [delayOf, hS]
  obtain ⟨heap2, P2, frame, hstep, -, -, hNF2, -, -, hfs2, -⟩ :=
    PlotFun_capture State Iter Phi Width Height a b c heap1 P1 fs1
      (fun h => hS h.1) (fun h => hS h.1)
      (by rw [hIm]; exact le_of_eq hI.symm) (le_of_eq hPhi.symm) hfs1 hsep1 ha hb hc
  rw [hd] at hfs2
  refine ⟨heap2, P2, frame, hstep, ?_, hfs2⟩
  rw [hNF2, hNF]
  simp [initialParam]

/-- Witness for C3: five calls with `IterPerFrame = 2` on a black `1 x 1`
image; the frames are those of the iterations `0`, `2` and `4`. -/
theorem frames_after_run_witness :
    ∃ heap1 PlotParam1 fs1,
      runCalls 1 1
        ((List.range 5).map
          (fun (n : Nat) => (⟨0, (n : Int), [-1], AllocOutcome.moved, AllocOutcome.inPlace,
            AllocOutcome.moved⟩ : Call)))
        [] (initialParam [0, 0, 0] ((2 : Nat) : Int)) = some (1, heap1, PlotParam1) ∧
      PlotParam1.NumFrames = (5 - 1) / 2 + 1 ∧
      frameSet heap1 PlotParam1 (1 * 1) = some fs1 ∧
      fs1.frames.length = (5 - 1) / 2 + 1 ∧
      fs1.delays.length = (5 - 1) / 2 + 1 ∧
      ∀ (State Iter : Int) (Phi : List ℚ) (a b c : AllocOutcome),
        (State = 1 ∨ State = 2) → Phi.length = 1 * 1 →
        a ≠ AllocOutcome.fail → b ≠ AllocOutcome.fail → c ≠ AllocOutcome.fail →
        ∃ heap2 PlotParam2 frame,
          PlotFun State Iter Phi 1 1 a b c heap1 PlotParam1
            = some (1, heap2, PlotParam2) ∧
          PlotParam2.NumFrames = (5 - 1) / 2 + 1 + 1 ∧
          frameSet heap2 PlotParam2 (1 * 1)
            = some ⟨fs1.frames ++ [frame], fs1.delays ++ [120]⟩ :=
  frames_after_run [0, 0, 0] 1 1 2 5 (fun _ => [-1]) (fun _ => AllocOutcome.moved)
    (fun _ => AllocOutcome.inPlace) (fun _ => AllocOutcome.moved) []
    (by decide) (by decide) (by decide) (fun _ => rfl)
    (fun _ => ⟨(fun h => by cases h), (fun h => by cases h), (fun h => by cases h)⟩)

/-- C4, on the code: in a run from the state set up by `main`, after a first
call that captures one frame, a second call whose `realloc` of the frame
buffer succeeds with a moved block and whose `realloc` of the delays fails
returns `0` with the struct unchanged, so that `PlotParam->Plot` is the
address of the block which that first `realloc` released. The Frame Set that
the struct referred to before the call is no longer there: the pointer is
dangling, the `free(PlotParam.Plot)` of `main` (line 264) and any later call
of `PlotFun` are undefined. -/
theorem failure_after_moved_buffer :
    PlotFun 0 0 [-1] 1 1 AllocOutcome.moved AllocOutcome.moved AllocOutcome.moved
      [] (initialParam [0, 0, 0] 1)
      = some (1, [some [0, 0, 0], some [12], none],
          { Image := [0, 0, 0], Plot := some 0, Delays := some 1,
            IterPerFrame := 1, NumFrames := 1 }) ∧
    frameSet [some [0, 0, 0], some [12], none]
      { Image := [0, 0, 0], Plot := some 0, Delays := some 1,
        IterPerFrame := 1, NumFrames := 1 } (1 * 1)
      = some ⟨[[0, 0, 0]], [12]⟩ ∧
    PlotFun 0 1 [-1] 1 1 AllocOutcome.moved AllocOutcome.fail AllocOutcome.moved
      [some [0, 0, 0], some [12], none]
      { Image := [0, 0, 0], Plot := some 0, Delays := some 1,
        IterPerFrame := 1, NumFrames := 1 }
      = some (0, [none, some [12], none, some [0, 0, 0, 0, 0, 0]],
          { Image := [0, 0, 0], Plot := some 0, Delays := some 1,
            IterPerFrame := 1, NumFrames := 1 }) ∧
    cellsOf [none, some [12], none, some [0, 0, 0, 0, 0, 0]] (some 0) = none ∧
    frameSet [none, some [12], none, some [0, 0, 0, 0, 0, 0]]
      { Image := [0, 0, 0], Plot := some 0, Delays := some 1,
        IterPerFrame := 1, NumFrames := 1 } (1 * 1) = none ∧
    free [none, some [12], none, some [0, 0, 0, 0, 0, 0]] 0 = none ∧
    PlotFun 1 2 [-1] 1 1 AllocOutcome.moved AllocOutcome.moved AllocOutcome.moved
      [none, some [12], none, some [0, 0, 0, 0, 0, 0]]
      { Image := [0, 0, 0], Plot := some 0, Delays := some 1,
        IterPerFrame := 1, NumFrames := 1 } = none :=
  ⟨first_capture, rfl, rfl, rfl, rfl, rfl, rfl⟩

end ChanVeseCli
